import Mathlib

/-!
Verification development for the finos-cdm-viewer Rosetta DSL pipeline:
parser (`RosettaParser.ts`), symbol index (`SymbolIndexer.ts`), graph
construction (`TypeGraphBuilder.ts`) and validation
(`DiagnosticProvider.ts` / `ValidationRules.ts`).

Shallow embedding conventions:
* TypeScript strings are Lean `String` (operated on via `String.data`,
  a `List Char`); regex scans are embedded as explicit character-list
  scanners with JavaScript's leftmost-match / greedy-run semantics.
* `Map` objects are embedded as association lists (`List (String × α)`)
  with a `mapSet` that overwrites an existing key in place and appends
  otherwise, matching JavaScript `Map.set` insertion-order semantics;
  lookups use `List.lookup`.
* Exceptions are embedded as `Except String`; a `try`/`catch` is the
  corresponding `match`.
* Recursive procedures whose termination is what is being studied are
  embedded with an explicit fuel parameter; the top-level entry point
  supplies fuel that is proved (or evident) to be sufficient.
-/

/-- Source location, `models/RosettaAst.ts` `Location`. -/
structure Location where
  line : Nat
  column : Nat
  length : Nat
deriving DecidableEq, Repr

/-- Cardinality record, `models/RosettaAst.ts` `Cardinality`.
`max` is `number | '*'` in the source; the unbounded sentinel `'*'` is
embedded as `none`. -/
structure Cardinality where
  min : Nat
  max : Option Nat
  isRequired : Bool
  isMultiple : Bool
deriving DecidableEq, Repr

/-- Import statement, `models/RosettaAst.ts` `RosettaImport`. -/
structure RosettaImport where
  path : String
  isWildcard : Bool
deriving DecidableEq, Repr

/-- Metadata annotation kinds, `models/RosettaAst.ts` `RosettaMetadata`. -/
inductive MetadataKind where
  | key
  | id
  | reference
  | scheme
deriving DecidableEq, Repr

/-- Metadata annotation, `models/RosettaAst.ts` `RosettaMetadata`. -/
structure RosettaMetadata where
  type : MetadataKind
deriving DecidableEq, Repr

/-- Field of a type, `models/RosettaAst.ts` `RosettaField`. -/
structure RosettaField where
  name : String
  type : String
  cardinality : Cardinality
  description : Option String
  metadata : List RosettaMetadata
  location : Location
deriving DecidableEq, Repr

/-- Condition, `models/RosettaAst.ts` `RosettaCondition`. -/
structure RosettaCondition where
  name : String
  description : Option String
  expression : String
  location : Location
deriving DecidableEq, Repr

/-- Type definition, `models/RosettaAst.ts` `RosettaType`.  The source
field `extends` is a Lean keyword, so it is embedded as `extendsName`
(the name the parser binds the captured group to). -/
structure RosettaType where
  name : String
  description : Option String
  extendsName : Option String
  metadata : List RosettaMetadata
  fields : List RosettaField
  conditions : List RosettaCondition
  location : Location
deriving DecidableEq, Repr

/-- Enum value, `models/RosettaAst.ts` `RosettaEnumValue`. -/
structure RosettaEnumValue where
  name : String
  displayName : Option String
  description : Option String
deriving DecidableEq, Repr

/-- Enum definition, `models/RosettaAst.ts` `RosettaEnum`. -/
structure RosettaEnum where
  name : String
  description : Option String
  values : List RosettaEnumValue
  location : Location
deriving DecidableEq, Repr

/-- Namespace declaration, `models/RosettaAst.ts` `RosettaNamespace`.
`namespace` is a Lean keyword, hence `RosettaNamespace` values are held
in fields named `nspace`. -/
structure RosettaNamespace where
  name : String
  description : Option String
  version : Option String
deriving DecidableEq, Repr

/-- Function definition, `models/RosettaAst.ts` `RosettaFunction`
(the parser's function extraction is a stub returning `[]`). -/
structure RosettaFunction where
  name : String
deriving DecidableEq, Repr

/-- A parsed file, `models/RosettaAst.ts` `RosettaFile`. -/
structure RosettaFile where
  filePath : String
  nspace : Option RosettaNamespace
  imports : List RosettaImport
  types : List RosettaType
  enums : List RosettaEnum
  functions : List RosettaFunction
deriving DecidableEq, Repr

/-- Severity of a parse error, the `'error' | 'warning'` union in
`models/RosettaAst.ts` `ParseError`. -/
inductive Severity where
  | error
  | warning
deriving DecidableEq, Repr

/-- Structured parse error, `models/RosettaAst.ts` `ParseError`. -/
structure ParseError where
  message : String
  location : Location
  severity : Severity
deriving DecidableEq, Repr

/-- Parse result, `models/RosettaAst.ts` `ParseResult`. -/
structure ParseResult where
  file : RosettaFile
  errors : List ParseError
deriving DecidableEq, Repr

/-! ## Cardinality parsing (`RosettaParser.parseCardinality`) -/

/-- Decimal value of a digit run, the embedding of JavaScript
`parseInt(s, 10)` on a string of decimal digits. -/
def digitsToNat (ds : List Char) : Nat :=
  ds.foldl (fun a c => a * 10 + (c.toNat - '0'.toNat)) 0

/-- Attempt to match the regex `(\d+)\.\.(\d+|\*)` at the head of the
character list, with JavaScript's greedy `\d+` runs and the
alternation `(\d+|\*)` preferring digits.  Returns the two captured
groups, the second as `none` for `*`. -/
def cardMatchHere (l : List Char) : Option (Nat × Option Nat) :=
  if (l.takeWhile (fun c => c.isDigit)).isEmpty then none
  else
    match l.dropWhile (fun c => c.isDigit) with
    | d1 :: d2 :: rest =>
      if d1 = '.' ∧ d2 = '.' then
        if (rest.takeWhile (fun c => c.isDigit)).isEmpty then
          match rest with
          | s :: _ =>
            if s = '*' then
              some (digitsToNat (l.takeWhile (fun c => c.isDigit)), none)
            else none
          | [] => none
        else
          some (digitsToNat (l.takeWhile (fun c => c.isDigit)),
            some (digitsToNat (rest.takeWhile (fun c => c.isDigit))))
      else none
    | _ => none

/-- Leftmost-match scan of `(\d+)\.\.(\d+|\*)` over the string, the
embedding of `cardinalityStr.match(...)`. -/
def cardScan : List Char → Option (Nat × Option Nat)
  | [] => none
  | c :: cs =>
    match cardMatchHere (c :: cs) with
    | some r => some r
    | none => cardScan cs

/-- `RosettaParser.parseCardinality` (`RosettaParser.ts:191-212`):
match `(\d+)\.\.(\d+|\*)`; on failure return the default cardinality
(min 1, max 1, required, not multiple); on success derive
`isRequired = min > 0` and `isMultiple = (max = '*') || max > 1`. -/
def parseCardinality (s : String) : Cardinality :=
  match cardScan s.data with
  | none => { min := 1, max := some 1, isRequired := true, isMultiple := false }
  | some (mn, mx) =>
    { min := mn
      max := mx
      isRequired := decide (0 < mn)
      isMultiple :=
        match mx with
        | none => true
        | some m => decide (1 < m) }

/-! ## Import extraction (`RosettaParser.extractImports`) -/

/-- Character class `[\w.*]` of the import regex. -/
def isImportChar (c : Char) : Bool :=
  ('a' ≤ c && c ≤ 'z') || ('A' ≤ c && c ≤ 'Z') || c.isDigit || c = '_' ||
    c = '.' || c = '*'

/-- JavaScript `\s` on the characters the scanner can meet. -/
def isJsSpace (c : Char) : Bool :=
  c = ' ' || c = '\t' || c = '\n' || c = '\r' || c = '\x0b' || c = '\x0c'

/-- JavaScript line terminators recognised by the multiline `^` anchor. -/
def isLineTerminator (c : Char) : Bool :=
  c = '\n' || c = '\r'

/-- Attempt to match `import\s+([\w.*]+)` at the head of the list.
On success returns the captured path (greedy maximal run) and the
remaining characters after the match. -/
def tryImportHere (l : List Char) : Option (List Char × List Char) :=
  match l with
  | 'i' :: 'm' :: 'p' :: 'o' :: 'r' :: 't' :: rest =>
    let sp := rest.takeWhile isJsSpace
    if sp.isEmpty then none
    else
      let afterSp := rest.dropWhile isJsSpace
      let path := afterSp.takeWhile isImportChar
      if path.isEmpty then none
      else some (path, afterSp.dropWhile isImportChar)
  | _ => none

/-- Scanner for the global multiline regex `^import\s+([\w.*]+)`:
a match may start only at the beginning of the input or right after a
line terminator; after a match the scan resumes past the match
(`lastIndex`), no longer at a line start.  The `fuel` parameter makes
the recursion structural; `fuel ≥ length of the input` is always
sufficient (each step consumes at least one character). -/
def extractImportsAux (fuel : Nat) (l : List Char) (atStart : Bool) :
    List RosettaImport :=
  match fuel, l with
  | 0, _ => []
  | _ + 1, [] => []
  | fuel + 1, c :: cs =>
    if atStart then
      match tryImportHere (c :: cs) with
      | some (path, rest) =>
        { path := ⟨path⟩, isWildcard := path.contains '*' } ::
          extractImportsAux fuel rest false
      | none => extractImportsAux fuel cs (isLineTerminator c)
    else extractImportsAux fuel cs (isLineTerminator c)

/-- `RosettaParser.extractImports` (`RosettaParser.ts:92-105`): collect
each match of `^import\s+([\w.*]+)` (multiline, global) as an import
whose `isWildcard` is `match[1].includes('*')`. -/
def extractImports (content : String) : List RosettaImport :=
  extractImportsAux content.data.length content.data true

/-! ## Symbol index (`SymbolIndexer.ts`) -/

/-- Symbol kinds, `models/RosettaAst.ts` `SymbolKind`. -/
inductive SymbolKind where
  | type
  | enum
deriving DecidableEq, Repr

/-- Symbol-table record, `models/RosettaAst.ts` `SymbolInfo`.  The
`namespace` field (a string, `''` when the file has no namespace) is
embedded as `nspace`. -/
structure SymbolInfo where
  name : String
  kind : SymbolKind
  nspace : String
  filePath : String
  location : Location
  documentation : Option String
deriving DecidableEq, Repr

/-- JavaScript `Map.get`: the value stored for the key, if any. -/
def mapGet {α : Type} (m : List (String × α)) (k : String) : Option α :=
  match m with
  | [] => none
  | kv :: rest => if kv.1 = k then some kv.2 else mapGet rest k

/-- JavaScript `Map.set`: overwrite the entry of an existing key in
place, otherwise append at the end (insertion order). -/
def mapSet {α : Type} (m : List (String × α)) (k : String) (v : α) :
    List (String × α) :=
  if (mapGet m k).isSome then
    m.map (fun kv => if kv.1 = k then (k, v) else kv)
  else m ++ [(k, v)]

/-- State of a `SymbolIndexer`: the `files`, `typeIndex` and
`enumIndex` maps. -/
structure IndexerState where
  files : List (String × RosettaFile)
  typeIndex : List (String × SymbolInfo)
  enumIndex : List (String × SymbolInfo)
deriving DecidableEq, Repr

/-- JavaScript `split('.')` on a character list: the dot-separated
components, empty components included. -/
def splitOnDot : List Char → List (List Char)
  | [] => [[]]
  | c :: cs =>
    if c = '.' then [] :: splitOnDot cs
    else
      match splitOnDot cs with
      | hd :: tl => (c :: hd) :: tl
      | [] => [[c]]

/-- `symbol.name.split('.').pop()`: the final dot-separated component
of a (possibly qualified) symbol name. -/
def simpleName (s : String) : String :=
  ⟨(splitOnDot s.data).getLastD s.data⟩

/-- `SymbolIndexer.getType` (part_004 lines 364-376): look the name up
in `typeIndex`, then re-fetch the concrete `RosettaType` from the
owning file by simple name. -/
def getType (st : IndexerState) (name : String) : Option RosettaType :=
  match mapGet st.typeIndex name with
  | none => none
  | some symbol =>
    match mapGet st.files symbol.filePath with
    | none => none
    | some file => file.types.find? (fun t => t.name = simpleName symbol.name)

/-- `SymbolIndexer.getEnum` (part_004 lines 381-393). -/
def getEnum (st : IndexerState) (name : String) : Option RosettaEnum :=
  match mapGet st.enumIndex name with
  | none => none
  | some symbol =>
    match mapGet st.files symbol.filePath with
    | none => none
    | some file => file.enums.find? (fun e => e.name = simpleName symbol.name)

/-- `SymbolIndexer.getSymbol` (part_004 lines 398-400):
`typeIndex.get(name) || enumIndex.get(name)`. -/
def getSymbol (st : IndexerState) (name : String) : Option SymbolInfo :=
  match mapGet st.typeIndex name with
  | some s => some s
  | none => mapGet st.enumIndex name

/-- The namespace string used by `indexFile`:
`result.file.namespace?.name || ''`. -/
def fileNamespaceName (f : RosettaFile) : String :=
  match f.nspace with
  | some n => n.name
  | none => ""

/-- `namespace ? namespace + '.' + name : name` (empty string is falsy
in JavaScript). -/
def qualifyName (nspace : String) (n : String) : String :=
  if nspace = "" then n else nspace ++ "." ++ n

/-- Register one `RosettaType` in a type index under its bare and
qualified names, the loop body of `indexFile` (part_004 lines 316-334). -/
def indexOneType (nspace filePath : String)
    (idx : List (String × SymbolInfo)) (t : RosettaType) :
    List (String × SymbolInfo) :=
  let qualifiedName := qualifyName nspace t.name
  mapSet
    (mapSet idx t.name
      { name := t.name, kind := .type, nspace := nspace, filePath := filePath
        location := t.location, documentation := t.description })
    qualifiedName
    { name := qualifiedName, kind := .type, nspace := nspace
      filePath := filePath, location := t.location
      documentation := t.description }

/-- Register one `RosettaEnum`, the loop body of `indexFile`
(part_004 lines 337-355). -/
def indexOneEnum (nspace filePath : String)
    (idx : List (String × SymbolInfo)) (e : RosettaEnum) :
    List (String × SymbolInfo) :=
  let qualifiedName := qualifyName nspace e.name
  mapSet
    (mapSet idx e.name
      { name := e.name, kind := .enum, nspace := nspace, filePath := filePath
        location := e.location, documentation := e.description })
    qualifiedName
    { name := qualifiedName, kind := .enum, nspace := nspace
      filePath := filePath, location := e.location
      documentation := e.description }

/-- `SymbolIndexer.indexFile` (part_004 lines 308-359), parameterised
by the parse result for the file (the source obtains it from
`parser.parseFile(filePath)`; file I/O is outside the embedding).  The
`files` entry for the path is replaced wholesale, and every type/enum
of the new parse is registered under its bare and qualified names. -/
def indexFile (st : IndexerState) (filePath : String)
    (parsed : RosettaFile) : IndexerState :=
  let nspace := fileNamespaceName parsed
  { files := mapSet st.files filePath parsed
    typeIndex := parsed.types.foldl (indexOneType nspace filePath) st.typeIndex
    enumIndex := parsed.enums.foldl (indexOneEnum nspace filePath) st.enumIndex }

/-- `SymbolIndexer.indexWorkspace` (part_004 lines 267-280),
parameterised by the `.rosetta` files discovered under the workspace
folders (directory walking is outside the embedding): clear all three
maps, then index every discovered file. -/
def indexWorkspace (discovered : List (String × RosettaFile)) : IndexerState :=
  discovered.foldl (fun st pf => indexFile st pf.1 pf.2)
    { files := [], typeIndex := [], enumIndex := [] }

/-! ## Type/enum extraction with per-element catch
(`RosettaParser.extractTypes` / `extractEnums` / `parse`)

A JavaScript exception is embedded as `Except.error` carrying the
stringified exception; the per-element `try`/`catch` bodies
(`extractMetadata`/`extractFields`/`extractConditions`, resp.
`extractEnumValues`) are abstracted as an `Except`-valued extractor so
the catch behaviour is established for every possible exception. -/

/-- The regex captures of one `type` match (`RosettaParser.ts:114-119`):
`[fullMatch, name, extendsName, description, body]` plus the computed
line number. -/
structure TypeMatch where
  name : String
  extendsName : Option String
  description : String
  body : String
  line : Nat
  fullLength : Nat
deriving DecidableEq, Repr

/-- What the `try` block of `extractTypes` computes from the body. -/
structure TypeParts where
  metadata : List RosettaMetadata
  fields : List RosettaField
  conditions : List RosettaCondition
deriving DecidableEq, Repr

/-- The `types.push({...})` record of `extractTypes`
(`RosettaParser.ts:126-138`). -/
def mkRosettaType (m : TypeMatch) (parts : TypeParts) : RosettaType :=
  { name := m.name
    description := if m.description = "" then none else some m.description
    extendsName := m.extendsName
    metadata := parts.metadata
    fields := parts.fields
    conditions := parts.conditions
    location := { line := m.line, column := 0, length := m.fullLength } }

/-- Catch-branch message of `extractTypes` (`RosettaParser.ts:140-144`). -/
def typeErrorMsg (m : TypeMatch) (e : String) : String :=
  "Error parsing type \x27" ++ m.name ++ "\x27: " ++ e

/-- Catch-branch `ParseError` of `extractTypes`. -/
def typeParseError (m : TypeMatch) (e : String) : ParseError :=
  { message := typeErrorMsg m e
    location := { line := m.line, column := 0, length := 0 }
    severity := .error }

/-- The match loop of `extractTypes` (`RosettaParser.ts:110-149`) over
abstract per-element extraction outcomes: an `ok` body pushes a type,
an exception pushes a `ParseError` at the element and the loop
continues with the next match. -/
def extractTypesCore (extract : TypeMatch → Except String TypeParts) :
    List TypeMatch → List RosettaType × List ParseError
  | [] => ([], [])
  | m :: ms =>
    let rest := extractTypesCore extract ms
    match extract m with
    | .ok parts => (mkRosettaType m parts :: rest.1, rest.2)
    | .error e => (rest.1, typeParseError m e :: rest.2)

/-- The regex captures of one `enum` match (`RosettaParser.ts:281-286`). -/
structure EnumMatch where
  name : String
  description : String
  body : String
  line : Nat
  fullLength : Nat
deriving DecidableEq, Repr

/-- The `enums.push({...})` record of `extractEnums`
(`RosettaParser.ts:291-300`). -/
def mkRosettaEnum (m : EnumMatch) (values : List RosettaEnumValue) :
    RosettaEnum :=
  { name := m.name
    description := if m.description = "" then none else some m.description
    values := values
    location := { line := m.line, column := 0, length := m.fullLength } }

/-- Catch-branch message of `extractEnums` (`RosettaParser.ts:302-306`). -/
def enumErrorMsg (m : EnumMatch) (e : String) : String :=
  "Error parsing enum \x27" ++ m.name ++ "\x27: " ++ e

/-- Catch-branch `ParseError` of `extractEnums`. -/
def enumParseError (m : EnumMatch) (e : String) : ParseError :=
  { message := enumErrorMsg m e
    location := { line := m.line, column := 0, length := 0 }
    severity := .error }

/-- The match loop of `extractEnums` (`RosettaParser.ts:279-311`) over
abstract per-element extraction outcomes. -/
def extractEnumsCore (extract : EnumMatch → Except String (List RosettaEnumValue)) :
    List EnumMatch → List RosettaEnum × List ParseError
  | [] => ([], [])
  | m :: ms =>
    let rest := extractEnumsCore extract ms
    match extract m with
    | .ok values => (mkRosettaEnum m values :: rest.1, rest.2)
    | .error e => (rest.1, enumParseError m e :: rest.2)

/-- The catch-branch `ParseError` of `parse` (`RosettaParser.ts:49-53`). -/
def parseFailError (e : String) : ParseError :=
  { message := "Failed to parse file: " ++ e
    location := { line := 0, column := 0, length := 0 }
    severity := .error }

/-- The empty `RosettaFile` returned by the catch branch of `parse`
(`RosettaParser.ts:55-64`). -/
def emptyRosettaFile (filePath : String) : RosettaFile :=
  { filePath := filePath, nspace := none, imports := [], types := []
    enums := [], functions := [] }

/-- `RosettaParser.parse` (`RosettaParser.ts:34-66`) over abstract
component outcomes, evaluated in source order (namespace, imports,
types, enums; function extraction is a stub returning `[]`).  The
type/enum components carry the errors they pushed into the shared
`errors` array before returning or throwing; the top-level `catch`
appends `parseFailError` to the errors accumulated so far and returns
the empty file. -/
def parseCore (filePath : String)
    (ns : Except String (Option RosettaNamespace))
    (imps : Except String (List RosettaImport))
    (tys : List ParseError × Except String (List RosettaType))
    (ens : List ParseError × Except String (List RosettaEnum)) :
    ParseResult :=
  match ns with
  | .error e => { file := emptyRosettaFile filePath, errors := [parseFailError e] }
  | .ok nsv =>
    match imps with
    | .error e => { file := emptyRosettaFile filePath, errors := [parseFailError e] }
    | .ok iv =>
      match tys.2 with
      | .error e =>
        { file := emptyRosettaFile filePath
          errors := tys.1 ++ [parseFailError e] }
      | .ok tv =>
        match ens.2 with
        | .error e =>
          { file := emptyRosettaFile filePath
            errors := tys.1 ++ ens.1 ++ [parseFailError e] }
        | .ok ev =>
          { file :=
              { filePath := filePath, nspace := nsv, imports := iv
                types := tv, enums := ev, functions := [] }
            errors := tys.1 ++ ens.1 }

/-! ## Validation (`ValidationRules.ts` / `DiagnosticProvider.ts`) -/

/-- Rule severities, `ValidationRules.ts` `DiagnosticSeverity`. -/
inductive DiagnosticSeverity where
  | error
  | warning
  | information
  | hint
deriving DecidableEq, Repr

/-- `vscode.DiagnosticSeverity` values. -/
inductive VsDiagnosticSeverity where
  | Error
  | Warning
  | Information
  | Hint
deriving DecidableEq, Repr

/-- `DiagnosticProvider.mapSeverity` (`DiagnosticProvider.ts:314-325`). -/
def mapSeverity : DiagnosticSeverity → VsDiagnosticSeverity
  | .error => .Error
  | .warning => .Warning
  | .information => .Information
  | .hint => .Hint

/-- A `vscode.Range` (character coordinates only). -/
structure Range where
  startLine : Nat
  startCharacter : Nat
  endLine : Nat
  endCharacter : Nat
deriving DecidableEq, Repr

/-- A `vscode.Diagnostic` as constructed by the provider. -/
structure Diagnostic where
  range : Range
  message : String
  severity : VsDiagnosticSeverity
deriving DecidableEq, Repr

/-- A validation rule, `ValidationRules.ts` `ValidationRule`. -/
structure ValidationRule where
  id : String
  name : String
  description : String
  severity : DiagnosticSeverity
  enabled : Bool
deriving DecidableEq, Repr

/-- `VALIDATION_RULES.UNDEFINED_TYPE` (part_000 lines 24-30). -/
def VALIDATION_RULES_UNDEFINED_TYPE : ValidationRule :=
  { id := "undefined-type", name := "Undefined Type Reference"
    description := "Type or enum referenced but not defined in workspace"
    severity := .error, enabled := true }

/-- `VALIDATION_RULES.CIRCULAR_INHERITANCE` (part_000 lines 31-37). -/
def VALIDATION_RULES_CIRCULAR_INHERITANCE : ValidationRule :=
  { id := "circular-inheritance", name := "Circular Inheritance"
    description := "Type has circular inheritance chain"
    severity := .error, enabled := true }

/-- `VALIDATION_RULES.INVALID_CARDINALITY` (part_000 lines 38-44). -/
def VALIDATION_RULES_INVALID_CARDINALITY : ValidationRule :=
  { id := "invalid-cardinality", name := "Invalid Cardinality"
    description := "Field cardinality min is greater than max"
    severity := .error, enabled := true }

/-- `VALIDATION_RULES.MISSING_DESCRIPTION` (part_000 lines 45-51);
note `enabled: false`. -/
def VALIDATION_RULES_MISSING_DESCRIPTION : ValidationRule :=
  { id := "missing-description", name := "Missing Description"
    description := "Type, enum, or field is missing a description"
    severity := .warning, enabled := false }

/-- `VALIDATION_RULES.DUPLICATE_FIELD` (part_000 lines 52-58). -/
def VALIDATION_RULES_DUPLICATE_FIELD : ValidationRule :=
  { id := "duplicate-field", name := "Duplicate Field Name"
    description := "Field name is duplicated within the same type"
    severity := .error, enabled := true }

/-- `VALIDATION_RULES.DUPLICATE_ENUM_VALUE` (part_000 lines 59-65). -/
def VALIDATION_RULES_DUPLICATE_ENUM_VALUE : ValidationRule :=
  { id := "duplicate-enum-value", name := "Duplicate Enum Value"
    description := "Enum value is duplicated"
    severity := .error, enabled := true }

/-- `VALIDATION_RULES.EMPTY_TYPE` (part_000 lines 66-72). -/
def VALIDATION_RULES_EMPTY_TYPE : ValidationRule :=
  { id := "empty-type", name := "Empty Type"
    description := "Type has no fields defined"
    severity := .warning, enabled := true }

/-- `VALIDATION_RULES.EMPTY_ENUM` (part_000 lines 73-79). -/
def VALIDATION_RULES_EMPTY_ENUM : ValidationRule :=
  { id := "empty-enum", name := "Empty Enum"
    description := "Enum has no values defined"
    severity := .error, enabled := true }

/-- The primitive-type list shared by `DiagnosticProvider.validateTypes`
(line 69) and `TypeGraphBuilder.isPrimitiveType` (line 180). -/
def primitiveTypes : List String :=
  ["string", "int", "number", "boolean", "date", "time", "dateTime",
    "zonedDateTime"]

/-- `TypeGraphBuilder.isPrimitiveType` / the
`primitiveTypes.includes(...)` tests of the validator. -/
def isPrimitiveType (typeName : String) : Bool :=
  primitiveTypes.contains typeName

/-- JavaScript falsiness of an optional string (`!type.description`):
absent or empty. -/
def descriptionFalsy : Option String → Bool
  | none => true
  | some d => d = ""

/-- `DiagnosticProvider.hasCircularInheritance`
(`DiagnosticProvider.ts:222-235`) with explicit fuel: return true when
the name was already visited, otherwise add it and follow the
`extends` link resolved through the indexer.  Each recursive step
consumes a name that resolves in `typeIndex` and is not yet visited,
so `typeIndex.length + 1` fuel (supplied by the wrapper below) always
suffices. -/
def hasCircularInheritanceFuel (st : IndexerState) :
    Nat → String → List String → Bool
  | 0, _, _ => false
  | fuel + 1, typeName, visited =>
    if visited.contains typeName then true
    else
      match getType st typeName with
      | some t =>
        match t.extendsName with
        | some parent =>
          hasCircularInheritanceFuel st fuel parent (typeName :: visited)
        | none => false
      | none => false

/-- `DiagnosticProvider.hasCircularInheritance`, entry point. -/
def hasCircularInheritance (st : IndexerState) (typeName : String)
    (visited : List String) : Bool :=
  hasCircularInheritanceFuel st (st.typeIndex.length + 1) typeName visited

/-- Message of the empty-type diagnostic (`DiagnosticProvider.ts:78`). -/
def emptyTypeMsg (typeName : String) : String :=
  "Type \x27" ++ typeName ++ "\x27 has no fields defined"

/-- Message of the missing-type-description diagnostic (line 87). -/
def missingTypeDescMsg (typeName : String) : String :=
  "Type \x27" ++ typeName ++ "\x27 is missing a description"

/-- Message of the undefined-parent diagnostic (line 100). -/
def undefinedParentMsg (parentName : String) : String :=
  "Parent type \x27" ++ parentName ++ "\x27 is not defined"

/-- Message of the circular-inheritance diagnostic (line 113). -/
def circularMsg (typeName : String) : String :=
  "Type \x27" ++ typeName ++ "\x27 has circular inheritance"

/-- Message of the duplicate-field diagnostic (line 127). -/
def dupFieldMsg (fieldName typeName : String) : String :=
  "Duplicate field name \x27" ++ fieldName ++ "\x27 in type \x27" ++
    typeName ++ "\x27"

/-- Message of the undefined-field-type diagnostic (line 146). -/
def undefinedFieldTypeMsg (fieldType : String) : String :=
  "Field type \x27" ++ fieldType ++ "\x27 is not defined"

/-- Message of the invalid-cardinality diagnostic (line 158). -/
def invalidCardinalityMsg (fieldName : String) (mn mx : Nat) : String :=
  "Invalid cardinality for field \x27" ++ fieldName ++ "\x27: min (" ++
    toString mn ++ ") > max (" ++ toString mx ++ ")"

/-- Message of the missing-field-description diagnostic (line 169). -/
def missingFieldDescMsg (fieldName : String) : String :=
  "Field \x27" ++ fieldName ++ "\x27 is missing a description"

/-- The duplicate-field loop of `validateTypes`
(`DiagnosticProvider.ts:120-133`): walk the fields with a seen-set;
a field whose name was already seen is flagged, then the name is
added. -/
def dupFieldLoop (typeName : String) (locF : String → String → Range) :
    List RosettaField → List String → List Diagnostic
  | [], _ => []
  | f :: fs, seen =>
    (if seen.contains f.name then
      [{ range := locF typeName f.name
         message := dupFieldMsg f.name typeName
         severity := mapSeverity VALIDATION_RULES_DUPLICATE_FIELD.severity }]
    else []) ++ dupFieldLoop typeName locF fs (f.name :: seen)

/-- The per-field checks of `validateTypes`
(`DiagnosticProvider.ts:136-173`): undefined field type, invalid
cardinality, missing field description. -/
def validateField (st : IndexerState) (typeName : String)
    (locF : String → String → Range) (f : RosettaField) : List Diagnostic :=
  (if VALIDATION_RULES_UNDEFINED_TYPE.enabled && !isPrimitiveType f.type then
    (match getType st f.type, getEnum st f.type with
      | none, none =>
        [{ range := locF typeName f.name
           message := undefinedFieldTypeMsg f.type
           severity := mapSeverity VALIDATION_RULES_UNDEFINED_TYPE.severity }]
      | _, _ => [])
  else []) ++
  (if VALIDATION_RULES_INVALID_CARDINALITY.enabled then
    (match f.cardinality.max with
      | some mx =>
        if f.cardinality.min > mx then
          [{ range := locF typeName f.name
             message := invalidCardinalityMsg f.name f.cardinality.min mx
             severity :=
               mapSeverity VALIDATION_RULES_INVALID_CARDINALITY.severity }]
        else []
      | none => [])
  else []) ++
  (if VALIDATION_RULES_MISSING_DESCRIPTION.enabled &&
      descriptionFalsy f.description then
    [{ range := locF typeName f.name
       message := missingFieldDescMsg f.name
       severity := mapSeverity VALIDATION_RULES_MISSING_DESCRIPTION.severity }]
  else [])

/-- The per-type body of `validateTypes`
(`DiagnosticProvider.ts:71-174`).  The document-text location finders
(`findTypeLocation`, `findExtendsLocation`, `findFieldLocation`) are
passed in as abstract functions; their results only populate the
`range` of each diagnostic. -/
def validateTypeOne (st : IndexerState) (locT : String → Range)
    (locE : String → String → Range) (locF : String → String → Range)
    (t : RosettaType) : List Diagnostic :=
  (if VALIDATION_RULES_EMPTY_TYPE.enabled && t.fields.isEmpty &&
      t.extendsName.isNone then
    [{ range := locT t.name, message := emptyTypeMsg t.name
       severity := mapSeverity VALIDATION_RULES_EMPTY_TYPE.severity }]
  else []) ++
  (if VALIDATION_RULES_MISSING_DESCRIPTION.enabled &&
      descriptionFalsy t.description then
    [{ range := locT t.name, message := missingTypeDescMsg t.name
       severity := mapSeverity VALIDATION_RULES_MISSING_DESCRIPTION.severity }]
  else []) ++
  (match t.extendsName with
    | some parent =>
      if VALIDATION_RULES_UNDEFINED_TYPE.enabled then
        if !isPrimitiveType parent then
          match getType st parent with
          | none =>
            [{ range := locE t.name parent
               message := undefinedParentMsg parent
               severity :=
                 mapSeverity VALIDATION_RULES_UNDEFINED_TYPE.severity }]
          | some _ => []
        else []
      else []
    | none => []) ++
  (match t.extendsName with
    | some parent =>
      if VALIDATION_RULES_CIRCULAR_INHERITANCE.enabled then
        if hasCircularInheritance st t.name [] then
          [{ range := locE t.name parent
             message := circularMsg t.name
             severity :=
               mapSeverity VALIDATION_RULES_CIRCULAR_INHERITANCE.severity }]
        else []
      else []
    | none => []) ++
  (if VALIDATION_RULES_DUPLICATE_FIELD.enabled then
    dupFieldLoop t.name locF t.fields []
  else []) ++
  t.fields.flatMap (validateField st t.name locF)

/-- `DiagnosticProvider.validateTypes` (`DiagnosticProvider.ts:68-175`):
the diagnostics pushed for all types of the file, in order. -/
def validateTypes (st : IndexerState) (file : RosettaFile)
    (locT : String → Range) (locE : String → String → Range)
    (locF : String → String → Range) : List Diagnostic :=
  file.types.flatMap (validateTypeOne st locT locE locF)

/-! ## Type graph (`models/TypeGraph.ts` / `TypeGraphBuilder.ts`) -/

/-- `models/TypeGraph.ts` `RelationshipType`. -/
inductive RelationshipType where
  | Extends
  | HasField
  | References
deriving DecidableEq, Repr

/-- Node kind union `'type' | 'enum'` of `TypeNode`. -/
inductive NodeKind where
  | type
  | enum
deriving DecidableEq, Repr

/-- `models/TypeGraph.ts` `TypeNode`; the optional `namespace` field is
embedded as `nspace`. -/
structure TypeNode where
  id : String
  name : String
  kind : NodeKind
  nspace : Option String
  description : Option String
deriving DecidableEq, Repr

/-- `models/TypeGraph.ts` `TypeEdge`; `from`/`to` are Lean keywords and
are embedded as `fromId`/`toId`. -/
structure TypeEdge where
  fromId : String
  toId : String
  relationshipType : RelationshipType
  label : Option String
deriving DecidableEq, Repr

/-- `models/TypeGraph.ts` `TypeGraph`: a node map plus an edge list. -/
structure TypeGraph where
  nodes : List (String × TypeNode)
  edges : List TypeEdge
deriving DecidableEq, Repr

/-- `models/TypeGraph.ts` `GraphOptions` (all fields optional). -/
structure GraphOptions where
  includeFields : Option Bool
  maxDepth : Option Nat
  includeEnums : Option Bool
  startFromType : Option String
deriving DecidableEq, Repr

/-- The mutable state threaded through `buildGraphRecursive`: the
`nodes` map, the `edges` array and the `visited` set. -/
structure GraphState where
  nodes : List (String × TypeNode)
  edges : List TypeEdge
  visited : List String
deriving DecidableEq, Repr

/-- `namespace ? namespace + '.' + name : name` where `namespace` is
`symbol?.namespace` (possibly absent, and the empty string is falsy). -/
def nodeIdOf (nspaceOpt : Option String) (n : String) : String :=
  match nspaceOpt with
  | some s => if s = "" then n else s ++ "." ++ n
  | none => n

/-- `TypeGraphBuilder.buildGraphRecursive`
(`TypeGraphBuilder.ts:99-174`) with explicit fuel.  Every recursive
call increments `depth` and the guard returns as soon as
`depth > maxDepth`, so `maxDepth + 1 - depth` fuel always suffices
(proved as fuel-independence in the termination theorem); the entry
point supplies `maxDepth + 1`. -/
def buildGraphRecursive (st : IndexerState) (opts : GraphOptions)
    (maxDepth : Nat) :
    Nat → String → Nat → GraphState → GraphState
  | 0, _, _, gs => gs
  | fuel + 1, typeName, depth, gs =>
    if depth > maxDepth || gs.visited.contains typeName then gs
    else
      let gs1 : GraphState := { gs with visited := typeName :: gs.visited }
      match getType st typeName with
      | some t =>
        let nsOpt := (getSymbol st typeName).map SymbolInfo.nspace
        let nodeId := nodeIdOf nsOpt t.name
        let gs2 : GraphState :=
          { gs1 with
            nodes := mapSet gs1.nodes nodeId
              { id := nodeId, name := t.name, kind := .type
                nspace := nsOpt, description := t.description } }
        let gs3 : GraphState :=
          match t.extendsName with
          | some parent =>
            let parentId := nodeIdOf nsOpt parent
            let gsE : GraphState :=
              { gs2 with
                edges := gs2.edges ++
                  [{ fromId := nodeId, toId := parentId
                     relationshipType := .Extends, label := some "extends" }] }
            buildGraphRecursive st opts maxDepth fuel parent (depth + 1) gsE
          | none => gs2
        if opts.includeFields ≠ some false then
          t.fields.foldl
            (fun gsAcc f =>
              if isPrimitiveType f.type then gsAcc
              else
                let fieldTypeId := nodeIdOf nsOpt f.type
                let gsF : GraphState :=
                  { gsAcc with
                    edges := gsAcc.edges ++
                      [{ fromId := nodeId, toId := fieldTypeId
                         relationshipType := .HasField
                         label := some f.name }] }
                buildGraphRecursive st opts maxDepth fuel f.type (depth + 1)
                  gsF)
            gs3
        else gs3
      | none =>
        match getEnum st typeName with
        | some eDef =>
          if opts.includeEnums ≠ some false then
            let nsOpt := (getSymbol st typeName).map SymbolInfo.nspace
            let nodeId := nodeIdOf nsOpt eDef.name
            { gs1 with
              nodes := mapSet gs1.nodes nodeId
                { id := nodeId, name := eDef.name, kind := .enum
                  nspace := nsOpt, description := eDef.description } }
          else gs1
        | none => gs1

/-- `TypeGraphBuilder.buildGraphFromType`
(`TypeGraphBuilder.ts:86-94`): default max depth 3, start from empty
state at depth 0. -/
def buildGraphFromType (st : IndexerState) (typeName : String)
    (opts : GraphOptions) : TypeGraph :=
  let maxDepth := opts.maxDepth.getD 3
  let gs := buildGraphRecursive st opts maxDepth (maxDepth + 1) typeName 0
    { nodes := [], edges := [], visited := [] }
  { nodes := gs.nodes, edges := gs.edges }

/-! ## Concrete fixtures used to instantiate the theorems -/

/-- A placeholder AST location. -/
def locZero : Location := { line := 0, column := 0, length := 0 }

/-- A placeholder document range. -/
def rangeZero : Range := { startLine := 0, startCharacter := 0, endLine := 0
                           endCharacter := 0 }

/-- Degenerate `findTypeLocation` stand-in. -/
def locTZero : String → Range := fun _ => rangeZero

/-- Degenerate `findExtendsLocation` stand-in. -/
def locEZero : String → String → Range := fun _ _ => rangeZero

/-- Degenerate `findFieldLocation` stand-in. -/
def locFZero : String → String → Range := fun _ _ => rangeZero

/-- The default cardinality record. -/
def cardDefault : Cardinality :=
  { min := 1, max := some 1, isRequired := true, isMultiple := false }

/-- A field record with the given name and type. -/
def mkField (n ty : String) : RosettaField :=
  { name := n, type := ty, cardinality := cardDefault, description := none
    metadata := [], location := locZero }

/-- A type record with the given name, parent and fields. -/
def mkType (n : String) (parent : Option String)
    (fs : List RosettaField) : RosettaType :=
  { name := n, description := none, extendsName := parent, metadata := []
    fields := fs, conditions := [], location := locZero }

/-- A file with the given path, types and enums and no namespace. -/
def mkFile (p : String) (ts : List RosettaType) (es : List RosettaEnum) :
    RosettaFile :=
  { filePath := p, nspace := none, imports := [], types := ts, enums := es
    functions := [] }

/-- A bare type symbol at the given file path. -/
def mkTypeSym (n p : String) : SymbolInfo :=
  { name := n, kind := .type, nspace := "", filePath := p, location := locZero
    documentation := none }

/-- A bare enum symbol at the given file path. -/
def mkEnumSym (n p : String) : SymbolInfo :=
  { name := n, kind := .enum, nspace := "", filePath := p, location := locZero
    documentation := none }

/-- C4 model: `Employee extends Person` with `department: Department`. -/
def employeeType : RosettaType :=
  mkType "Employee" (some "Person") [mkField "department" "Department"]

/-- C4 model: `Person`, no parent, no fields. -/
def personType : RosettaType := mkType "Person" none []

/-- C4 model: `Department`, no parent, no fields. -/
def departmentType : RosettaType := mkType "Department" none []

/-- C4 model file. -/
def employeeFile : RosettaFile :=
  mkFile "f" [employeeType, personType, departmentType] []

/-- C4 model index state. -/
def employeeState : IndexerState :=
  { files := [("f", employeeFile)]
    typeIndex := [("Employee", mkTypeSym "Employee" "f"),
                  ("Person", mkTypeSym "Person" "f"),
                  ("Department", mkTypeSym "Department" "f")]
    enumIndex := [] }

/-- C4 graph options: `maxDepth = 1`, rest defaulted. -/
def employeeOpts : GraphOptions :=
  { includeFields := none, maxDepth := some 1, includeEnums := none
    startFromType := none }

/-- Self-extension fixture: `type A extends A`. -/
def selfLoopType : RosettaType := mkType "A" (some "A") []

/-- Self-extension fixture file. -/
def selfLoopFile : RosettaFile := mkFile "g" [selfLoopType] []

/-- Self-extension fixture index state. -/
def selfLoopState : IndexerState :=
  { files := [("g", selfLoopFile)]
    typeIndex := [("A", mkTypeSym "A" "g")]
    enumIndex := [] }

/-- Two-cycle fixture: `type A extends B`. -/
def cycleTypeA : RosettaType := mkType "A" (some "B") []

/-- Two-cycle fixture: `type B extends A`. -/
def cycleTypeB : RosettaType := mkType "B" (some "A") []

/-- Two-cycle fixture file containing both types. -/
def cycleFile : RosettaFile := mkFile "h" [cycleTypeA, cycleTypeB] []

/-- Two-cycle fixture index state. -/
def cycleState : IndexerState :=
  { files := [("h", cycleFile)]
    typeIndex := [("A", mkTypeSym "A" "h"), ("B", mkTypeSym "B" "h")]
    enumIndex := [] }

/-- C6 fixture: a type with three fields named `a`. -/
def tripleFieldType : RosettaType :=
  mkType "T" none [mkField "a" "string", mkField "a" "string",
    mkField "a" "string"]

/-- The empty indexer state. -/
def emptyIndexerState : IndexerState :=
  { files := [], typeIndex := [], enumIndex := [] }

/-- C8 fixture: a file that defines no type or enum. -/
def barrenFile : RosettaFile := mkFile "k" [] []

/-- C8 fixture: symbols pointing at `barrenFile` (symbol present, member
absent) and at a path absent from the file table. -/
def staleLookupState : IndexerState :=
  { files := [("k", barrenFile)]
    typeIndex := [("T", mkTypeSym "T" "k"), ("U", mkTypeSym "U" "gone")]
    enumIndex := [("E", mkEnumSym "E" "k")] }

/-- C9 fixture: previous content of path `w`. -/
def oldFileW : RosettaFile := mkFile "w" [mkType "Old" none []] []

/-- C9 fixture: new parse of path `w`, with a namespace. -/
def newFileW : RosettaFile :=
  { filePath := "w"
    nspace := some { name := "ns", description := none, version := none }
    imports := []
    types := [mkType "New" none []]
    enums := [{ name := "Color", description := none, values := []
                location := locZero }]
    functions := [] }

/-- C9 fixture: state before re-indexing `w`. -/
def preIndexState : IndexerState :=
  { files := [("w", oldFileW), ("v", barrenFile)]
    typeIndex := [("Old", mkTypeSym "Old" "w")]
    enumIndex := [] }

/-- C10 fixture: old content of path `p` defining type `T`. -/
def oldFileP : RosettaFile := mkFile "p" [mkType "T" none []] []

/-- C10 fixture: re-parsed content of path `p` without `T`. -/
def newFileP : RosettaFile := mkFile "p" [mkType "S" none []] []

/-- C10 fixture: state in which `T` is indexed from path `p`. -/
def staleSymState : IndexerState :=
  { files := [("p", oldFileP)]
    typeIndex := [("T", mkTypeSym "T" "p")]
    enumIndex := [] }

/-! ## Theorems -/

/-! ### Lookup lemmas for `mapGet` / `mapSet` -/

theorem mapGet_mapSet_self {α : Type} (m : List (String × α)) (k : String)
    (v : α) : mapGet (mapSet m k v) k = some v := by
  unfold mapSet
  split_ifs with h
  · induction m with
    | nil => simp [mapGet] at h
    | cons kv m ih =>
      by_cases hk : kv.1 = k
      · simp [mapGet, hk]
      · simp only [mapGet, if_neg hk] at h
        simp only [List.map_cons, if_neg hk, mapGet, if_neg hk]
        exact ih h
  · induction m with
    | nil => simp [mapGet]
    | cons kv m ih =>
      by_cases hk : kv.1 = k
      · exact absurd (by simp [mapGet, hk]) h
      · simp only [mapGet, if_neg hk] at h
        simp only [List.cons_append, mapGet, if_neg hk]
        exact ih h

theorem mapGet_mapSet_ne {α : Type} (m : List (String × α)) (k k' : String)
    (v : α) (hne : k' ≠ k) : mapGet (mapSet m k v) k' = mapGet m k' := by
  unfold mapSet
  split_ifs with h
  · clear h
    induction m with
    | nil => simp
    | cons kv m ih =>
      by_cases hk : kv.1 = k
      · have hk2 : ¬(k = k') := fun he => hne he.symm
        have hk3 : ¬(kv.1 = k') := by rw [hk]; exact hk2
        simp only [List.map_cons, if_pos hk, mapGet, if_neg hk2, if_neg hk3]
        exact ih
      · simp only [List.map_cons, if_neg hk, mapGet]
        by_cases hkk : kv.1 = k'
        · simp [hkk]
        · simp only [if_neg hkk]
          exact ih
  · clear h
    induction m with
    | nil =>
      have hk2 : ¬(k = k') := fun he => hne he.symm
      simp [mapGet, hk2]
    | cons kv m ih =>
      simp only [List.cons_append, mapGet]
      by_cases hkk : kv.1 = k'
      · simp [hkk]
      · simp only [if_neg hkk]
        exact ih

theorem mapGet_mapSet_isSome {α : Type} (m : List (String × α))
    (k k' : String) (v : α) (h : (mapGet m k').isSome = true) :
    (mapGet (mapSet m k v) k').isSome = true := by
  by_cases he : k' = k
  · subst he
    rw [mapGet_mapSet_self]
    rfl
  · rw [mapGet_mapSet_ne m k k' v he]
    exact h

/-! ### Effect of `indexFile` on the symbol tables -/

theorem indexOneType_get (ns p : String) (idx : List (String × SymbolInfo))
    (t : RosettaType) (k : String) :
    mapGet (indexOneType ns p idx t) k = mapGet idx k ∨
      ∃ s, mapGet (indexOneType ns p idx t) k = some s ∧
        s.filePath = p ∧ s.kind = .type := by
  unfold indexOneType
  by_cases hq : k = qualifyName ns t.name
  · subst hq
    exact Or.inr ⟨_, mapGet_mapSet_self _ _ _, rfl, rfl⟩
  · rw [mapGet_mapSet_ne _ _ _ _ hq]
    by_cases hb : k = t.name
    · subst hb
      exact Or.inr ⟨_, mapGet_mapSet_self _ _ _, rfl, rfl⟩
    · rw [mapGet_mapSet_ne _ _ _ _ hb]
      exact Or.inl rfl

theorem indexOneType_get_bare (ns p : String)
    (idx : List (String × SymbolInfo)) (t : RosettaType) :
    ∃ s, mapGet (indexOneType ns p idx t) t.name = some s ∧
      s.filePath = p ∧ s.kind = .type := by
  unfold indexOneType
  by_cases hq : t.name = qualifyName ns t.name
  · rw [← hq]
    exact ⟨_, mapGet_mapSet_self _ _ _, rfl, rfl⟩
  · rw [mapGet_mapSet_ne _ _ _ _ hq]
    exact ⟨_, mapGet_mapSet_self _ _ _, rfl, rfl⟩

theorem indexOneType_get_qual (ns p : String)
    (idx : List (String × SymbolInfo)) (t : RosettaType) :
    ∃ s, mapGet (indexOneType ns p idx t) (qualifyName ns t.name) = some s ∧
      s.filePath = p ∧ s.kind = .type := by
  unfold indexOneType
  exact ⟨_, mapGet_mapSet_self _ _ _, rfl, rfl⟩

theorem indexOneType_untouched (ns p : String)
    (idx : List (String × SymbolInfo)) (t : RosettaType) (k : String)
    (hb : k ≠ t.name) (hq : k ≠ qualifyName ns t.name) :
    mapGet (indexOneType ns p idx t) k = mapGet idx k := by
  unfold indexOneType
  rw [mapGet_mapSet_ne _ _ _ _ hq, mapGet_mapSet_ne _ _ _ _ hb]

theorem foldl_indexOneType_get (ns p : String) (ts : List RosettaType)
    (idx : List (String × SymbolInfo)) (k : String) :
    mapGet (ts.foldl (indexOneType ns p) idx) k = mapGet idx k ∨
      ∃ s, mapGet (ts.foldl (indexOneType ns p) idx) k = some s ∧
        s.filePath = p ∧ s.kind = .type := by
  induction ts generalizing idx with
  | nil => exact Or.inl rfl
  | cons t ts ih =>
    simp only [List.foldl_cons]
    rcases ih (indexOneType ns p idx t) with h | h
    · rw [h]
      exact indexOneType_get ns p idx t k
    · exact Or.inr h

theorem foldl_indexOneType_mem (ns p : String) (ts : List RosettaType)
    (idx : List (String × SymbolInfo)) (t : RosettaType) (ht : t ∈ ts) :
    (∃ s, mapGet (ts.foldl (indexOneType ns p) idx) t.name = some s ∧
        s.filePath = p ∧ s.kind = .type) ∧
      ∃ s, mapGet (ts.foldl (indexOneType ns p) idx)
          (qualifyName ns t.name) = some s ∧
        s.filePath = p ∧ s.kind = .type := by
  induction ts generalizing idx with
  | nil => cases ht
  | cons hd ts ih =>
    simp only [List.foldl_cons]
    rcases List.mem_cons.mp ht with he | hm
    · subst he
      constructor
      · rcases foldl_indexOneType_get ns p ts (indexOneType ns p idx t)
            t.name with h | h
        · rw [h]
          exact indexOneType_get_bare ns p idx t
        · exact h
      · rcases foldl_indexOneType_get ns p ts (indexOneType ns p idx t)
            (qualifyName ns t.name) with h | h
        · rw [h]
          exact indexOneType_get_qual ns p idx t
        · exact h
    · exact ih _ hm

theorem foldl_indexOneType_frame (ns p : String) (ts : List RosettaType)
    (idx : List (String × SymbolInfo)) (k : String)
    (h : ∀ t ∈ ts, k ≠ t.name ∧ k ≠ qualifyName ns t.name) :
    mapGet (ts.foldl (indexOneType ns p) idx) k = mapGet idx k := by
  induction ts generalizing idx with
  | nil => rfl
  | cons t ts ih =>
    simp only [List.foldl_cons]
    rw [ih _ (fun a ha => h a (List.mem_cons_of_mem t ha))]
    exact indexOneType_untouched ns p idx t k
      (h t (List.mem_cons_self t ts)).1 (h t (List.mem_cons_self t ts)).2

theorem indexOneEnum_get (ns p : String) (idx : List (String × SymbolInfo))
    (e : RosettaEnum) (k : String) :
    mapGet (indexOneEnum ns p idx e) k = mapGet idx k ∨
      ∃ s, mapGet (indexOneEnum ns p idx e) k = some s ∧
        s.filePath = p ∧ s.kind = .enum := by
  unfold indexOneEnum
  by_cases hq : k = qualifyName ns e.name
  · subst hq
    exact Or.inr ⟨_, mapGet_mapSet_self _ _ _, rfl, rfl⟩
  · rw [mapGet_mapSet_ne _ _ _ _ hq]
    by_cases hb : k = e.name
    · subst hb
      exact Or.inr ⟨_, mapGet_mapSet_self _ _ _, rfl, rfl⟩
    · rw [mapGet_mapSet_ne _ _ _ _ hb]
      exact Or.inl rfl

theorem indexOneEnum_get_bare (ns p : String)
    (idx : List (String × SymbolInfo)) (e : RosettaEnum) :
    ∃ s, mapGet (indexOneEnum ns p idx e) e.name = some s ∧
      s.filePath = p ∧ s.kind = .enum := by
  unfold indexOneEnum
  by_cases hq : e.name = qualifyName ns e.name
  · rw [← hq]
    exact ⟨_, mapGet_mapSet_self _ _ _, rfl, rfl⟩
  · rw [mapGet_mapSet_ne _ _ _ _ hq]
    exact ⟨_, mapGet_mapSet_self _ _ _, rfl, rfl⟩

theorem indexOneEnum_get_qual (ns p : String)
    (idx : List (String × SymbolInfo)) (e : RosettaEnum) :
    ∃ s, mapGet (indexOneEnum ns p idx e) (qualifyName ns e.name) = some s ∧
      s.filePath = p ∧ s.kind = .enum := by
  unfold indexOneEnum
  exact ⟨_, mapGet_mapSet_self _ _ _, rfl, rfl⟩

theorem indexOneEnum_untouched (ns p : String)
    (idx : List (String × SymbolInfo)) (e : RosettaEnum) (k : String)
    (hb : k ≠ e.name) (hq : k ≠ qualifyName ns e.name) :
    mapGet (indexOneEnum ns p idx e) k = mapGet idx k := by
  unfold indexOneEnum
  rw [mapGet_mapSet_ne _ _ _ _ hq, mapGet_mapSet_ne _ _ _ _ hb]

theorem foldl_indexOneEnum_get (ns p : String) (es : List RosettaEnum)
    (idx : List (String × SymbolInfo)) (k : String) :
    mapGet (es.foldl (indexOneEnum ns p) idx) k = mapGet idx k ∨
      ∃ s, mapGet (es.foldl (indexOneEnum ns p) idx) k = some s ∧
        s.filePath = p ∧ s.kind = .enum := by
  induction es generalizing idx with
  | nil => exact Or.inl rfl
  | cons e es ih =>
    simp only [List.foldl_cons]
    rcases ih (indexOneEnum ns p idx e) with h | h
    · rw [h]
      exact indexOneEnum_get ns p idx e k
    · exact Or.inr h

theorem foldl_indexOneEnum_mem (ns p : String) (es : List RosettaEnum)
    (idx : List (String × SymbolInfo)) (e : RosettaEnum) (he : e ∈ es) :
    (∃ s, mapGet (es.foldl (indexOneEnum ns p) idx) e.name = some s ∧
        s.filePath = p ∧ s.kind = .enum) ∧
      ∃ s, mapGet (es.foldl (indexOneEnum ns p) idx)
          (qualifyName ns e.name) = some s ∧
        s.filePath = p ∧ s.kind = .enum := by
  induction es generalizing idx with
  | nil => cases he
  | cons hd es ih =>
    simp only [List.foldl_cons]
    rcases List.mem_cons.mp he with heq | hm
    · subst heq
      constructor
      · rcases foldl_indexOneEnum_get ns p es (indexOneEnum ns p idx e)
            e.name with h | h
        · rw [h]
          exact indexOneEnum_get_bare ns p idx e
        · exact h
      · rcases foldl_indexOneEnum_get ns p es (indexOneEnum ns p idx e)
            (qualifyName ns e.name) with h | h
        · rw [h]
          exact indexOneEnum_get_qual ns p idx e
        · exact h
    · exact ih _ hm

theorem foldl_indexOneEnum_frame (ns p : String) (es : List RosettaEnum)
    (idx : List (String × SymbolInfo)) (k : String)
    (h : ∀ e ∈ es, k ≠ e.name ∧ k ≠ qualifyName ns e.name) :
    mapGet (es.foldl (indexOneEnum ns p) idx) k = mapGet idx k := by
  induction es generalizing idx with
  | nil => rfl
  | cons e es ih =>
    simp only [List.foldl_cons]
    rw [ih _ (fun a ha => h a (List.mem_cons_of_mem e ha))]
    exact indexOneEnum_untouched ns p idx e k
      (h e (List.mem_cons_self e es)).1 (h e (List.mem_cons_self e es)).2

theorem takeWhile_append_all {α : Type} (p : α → Bool) (a l : List α)
    (h : ∀ c ∈ a, p c = true) :
    (a ++ l).takeWhile p = a ++ l.takeWhile p := by
  induction a with
  | nil => simp
  | cons c a ih =>
    simp only [List.cons_append, List.takeWhile_cons,
      h c (List.mem_cons_self c a), if_true]
    rw [ih (fun x hx => h x (List.mem_cons_of_mem c hx))]

theorem dropWhile_append_all {α : Type} (p : α → Bool) (a l : List α)
    (h : ∀ c ∈ a, p c = true) :
    (a ++ l).dropWhile p = l.dropWhile p := by
  induction a with
  | nil => simp
  | cons c a ih =>
    simp only [List.cons_append, List.dropWhile_cons,
      h c (List.mem_cons_self c a), if_true]
    exact ih (fun x hx => h x (List.mem_cons_of_mem c hx))

theorem cardMatchHere_digits (a b : List Char) (ha : a ≠ []) (hb : b ≠ [])
    (hda : ∀ c ∈ a, c.isDigit) (hdb : ∀ c ∈ b, c.isDigit) :
    cardMatchHere (a ++ '.' :: '.' :: b) =
      some (digitsToNat a, some (digitsToNat b)) := by
  have hta : (a ++ '.' :: '.' :: b).takeWhile (fun c => c.isDigit) = a := by
    rw [takeWhile_append_all _ _ _ hda]
    simp [List.takeWhile_cons]
  have hdra : (a ++ '.' :: '.' :: b).dropWhile (fun c => c.isDigit) =
      '.' :: '.' :: b := by
    rw [dropWhile_append_all _ _ _ hda]
    simp [List.dropWhile_cons]
  have htb : b.takeWhile (fun c => c.isDigit) = b := by
    have := takeWhile_append_all (fun c => c.isDigit) b [] hdb
    simpa using this
  obtain ⟨c, a', rfl⟩ : ∃ c a', a = c :: a' := by
    cases a with
    | nil => exact absurd rfl ha
    | cons c a' => exact ⟨c, a', rfl⟩
  obtain ⟨d, b', rfl⟩ : ∃ d b', b = d :: b' := by
    cases b with
    | nil => exact absurd rfl hb
    | cons d b' => exact ⟨d, b', rfl⟩
  unfold cardMatchHere
  rw [hta, hdra]
  simp only [List.isEmpty_cons, Bool.false_eq_true, if_false]
  simp [htb]

theorem cardMatchHere_star (a : List Char) (ha : a ≠ [])
    (hda : ∀ c ∈ a, c.isDigit) :
    cardMatchHere (a ++ '.' :: '.' :: ['*']) =
      some (digitsToNat a, none) := by
  have hta : (a ++ '.' :: '.' :: ['*']).takeWhile (fun c => c.isDigit) = a := by
    rw [takeWhile_append_all _ _ _ hda]
    simp [List.takeWhile_cons]
  have hdra : (a ++ '.' :: '.' :: ['*']).dropWhile (fun c => c.isDigit) =
      '.' :: '.' :: ['*'] := by
    rw [dropWhile_append_all _ _ _ hda]
    simp [List.dropWhile_cons]
  have hstar : List.takeWhile (fun c => c.isDigit) ['*'] = [] := by decide
  obtain ⟨c, a', rfl⟩ : ∃ c a', a = c :: a' := by
    cases a with
    | nil => exact absurd rfl ha
    | cons c a' => exact ⟨c, a', rfl⟩
  unfold cardMatchHere
  rw [hta, hdra]
  simp only [List.isEmpty_cons, Bool.false_eq_true, if_false]
  simp [hstar]

theorem cardScan_some_decomp (l : List Char) (r : Nat × Option Nat)
    (h : cardScan l = some r) :
    ∃ p d t q, l = p ++ d ++ '.' :: '.' :: (t ++ q) ∧ d ≠ [] ∧
      (∀ c ∈ d, c.isDigit) ∧
      (t = ['*'] ∨ (t ≠ [] ∧ ∀ c ∈ t, c.isDigit)) := by
  induction l with
  | nil => simp [cardScan] at h
  | cons c cs ih =>
    rw [cardScan] at h
    cases hm : cardMatchHere (c :: cs) with
    | some r' =>
      clear ih h
      have hsplit :
          c :: cs = (c :: cs).takeWhile (fun c => c.isDigit) ++
            (c :: cs).dropWhile (fun c => c.isDigit) :=
        (List.takeWhile_append_dropWhile (p := fun c => c.isDigit)
          (l := c :: cs)).symm
      have hdig : ∀ x ∈ (c :: cs).takeWhile (fun c => c.isDigit),
          x.isDigit := by
        intro x hx
        have := List.mem_takeWhile_imp hx
        simpa using this
      unfold cardMatchHere at hm
      split at hm
      · exact Option.noConfusion hm
      · rename_i hde
        have hdne : (c :: cs).takeWhile (fun c => c.isDigit) ≠ [] := by
          intro he
          rw [he] at hde
          exact hde rfl
        split at hm
        · rename_i d1 d2 rest heq
          rw [heq] at hsplit
          split at hm
          · rename_i hcond
            obtain ⟨h1, h2⟩ := hcond
            subst h1
            subst h2
            split at hm
            · rename_i hd2e
              cases rest with
              | nil => exact Option.noConfusion hm
              | cons s tail =>
                by_cases hs : s = '*'
                · subst hs
                  exact ⟨[], (c :: cs).takeWhile (fun c => c.isDigit), ['*'],
                    tail, by simpa using hsplit, hdne, hdig, Or.inl rfl⟩
                · have hm2 : (if s = '*' then
                      some (digitsToNat
                        ((c :: cs).takeWhile (fun c => c.isDigit)),
                        (none : Option Nat))
                    else none) = some r' := hm
                  rw [if_neg hs] at hm2
                  exact Option.noConfusion hm2
            · rename_i hd2e
              refine ⟨[], (c :: cs).takeWhile (fun c => c.isDigit),
                rest.takeWhile (fun c => c.isDigit),
                rest.dropWhile (fun c => c.isDigit), ?_, hdne, hdig, ?_⟩
              · rw [List.takeWhile_append_dropWhile]
                simpa using hsplit
              · refine Or.inr ⟨?_, ?_⟩
                · intro he
                  rw [he] at hd2e
                  exact hd2e rfl
                · intro z hz
                  have := List.mem_takeWhile_imp hz
                  simpa using this
          · exact Option.noConfusion hm
        · exact Option.noConfusion hm
    | none =>
      rw [hm] at h
      obtain ⟨p, d, t, q, heq, hd, hdd, ht⟩ := ih h
      exact ⟨c :: p, d, t, q, by simp [heq], hd, hdd, ht⟩

/-- C1: for every cardinality string of the shape `min..max` the parser
returns the parsed `min`, the parsed `max` (or the unbounded sentinel
for `*`), `isRequired = min > 0` and `isMultiple = (max = *) or
max > 1`; a string containing no `(\d+)\.\.(\d+|\*)` match yields the
default cardinality (1, 1, required, not multiple); and the four
concrete examples evaluate as specified. -/
theorem claim_c1 :
    (∀ a b : List Char, a ≠ [] → b ≠ [] → (∀ c ∈ a, c.isDigit) →
      (∀ c ∈ b, c.isDigit) →
      parseCardinality ⟨a ++ '.' :: '.' :: b⟩ =
        { min := digitsToNat a, max := some (digitsToNat b)
          isRequired := decide (0 < digitsToNat a)
          isMultiple := decide (1 < digitsToNat b) }) ∧
    (∀ a : List Char, a ≠ [] → (∀ c ∈ a, c.isDigit) →
      parseCardinality ⟨a ++ '.' :: '.' :: ['*']⟩ =
        { min := digitsToNat a, max := none
          isRequired := decide (0 < digitsToNat a), isMultiple := true }) ∧
    (∀ s : String,
      (¬ ∃ p d t q, s.data = p ++ d ++ '.' :: '.' :: (t ++ q) ∧ d ≠ [] ∧
        (∀ c ∈ d, c.isDigit) ∧
        (t = ['*'] ∨ (t ≠ [] ∧ ∀ c ∈ t, c.isDigit))) →
      parseCardinality s =
        { min := 1, max := some 1, isRequired := true
          isMultiple := false }) ∧
    parseCardinality "0..1" =
      { min := 0, max := some 1, isRequired := false, isMultiple := false } ∧
    parseCardinality "1..1" =
      { min := 1, max := some 1, isRequired := true, isMultiple := false } ∧
    parseCardinality "0..*" =
      { min := 0, max := none, isRequired := false, isMultiple := true } ∧
    parseCardinality "1..*" =
      { min := 1, max := none, isRequired := true, isMultiple := true } := by
  refine ⟨?_, ?_, ?_, by decide, by decide, by decide, by decide⟩
  · intro a b ha hb hda hdb
    obtain ⟨c, a', rfl⟩ : ∃ c a', a = c :: a' := by
      cases a with
      | nil => exact absurd rfl ha
      | cons c a' => exact ⟨c, a', rfl⟩
    have hm := cardMatchHere_digits (c :: a') b (by simp) hb hda hdb
    show parseCardinality ⟨c :: (a' ++ '.' :: '.' :: b)⟩ = _
    unfold parseCardinality
    have : cardScan (c :: (a' ++ '.' :: '.' :: b)) =
        some (digitsToNat (c :: a'), some (digitsToNat b)) := by
      rw [cardScan]
      have he : c :: (a' ++ '.' :: '.' :: b) =
          (c :: a') ++ '.' :: '.' :: b := rfl
      rw [he, hm]
    simp only [this]
  · intro a ha hda
    obtain ⟨c, a', rfl⟩ : ∃ c a', a = c :: a' := by
      cases a with
      | nil => exact absurd rfl ha
      | cons c a' => exact ⟨c, a', rfl⟩
    have hm := cardMatchHere_star (c :: a') (by simp) hda
    show parseCardinality ⟨c :: (a' ++ '.' :: '.' :: ['*'])⟩ = _
    unfold parseCardinality
    have : cardScan (c :: (a' ++ '.' :: '.' :: ['*'])) =
        some (digitsToNat (c :: a'), none) := by
      rw [cardScan]
      have he : c :: (a' ++ '.' :: '.' :: ['*']) =
          (c :: a') ++ '.' :: '.' :: ['*'] := rfl
      rw [he, hm]
    simp only [this]
  · intro s hno
    cases hscan : cardScan s.data with
    | none => unfold parseCardinality; rw [hscan]
    | some r => exact absurd (cardScan_some_decomp s.data r hscan) hno

/-- Witness for C1 at the concrete input `"12..34"`. -/
theorem claim_c1_witness :
    parseCardinality "12..34" =
      { min := 12, max := some 34, isRequired := true, isMultiple := true } := by
  have h := claim_c1.1 ['1', '2'] ['3', '4'] (by simp) (by simp)
    (by decide) (by decide)
  have he : ("12..34" : String) = ⟨['1', '2'] ++ '.' :: '.' :: ['3', '4']⟩ := by
    decide
  rw [he, h]
  decide

theorem extractImportsAux_wildcard :
    ∀ (fuel : Nat) (l : List Char) (atStart : Bool) (imp : RosettaImport),
      imp ∈ extractImportsAux fuel l atStart →
      (imp.isWildcard = true ↔ '*' ∈ imp.path.data) := by
  intro fuel
  induction fuel with
  | zero =>
    intro l atStart imp h
    simp [extractImportsAux] at h
  | succ fuel ih =>
    intro l atStart imp h
    cases l with
    | nil => simp [extractImportsAux] at h
    | cons c cs =>
      rw [extractImportsAux] at h
      by_cases hst : atStart = true
      · rw [if_pos hst] at h
        cases htry : tryImportHere (c :: cs) with
        | some pr =>
          obtain ⟨path, rest⟩ := pr
          rw [htry] at h
          rcases List.mem_cons.mp h with he | hm
          · subst he
            simp [List.elem_iff]
          · exact ih _ _ _ hm
        | none =>
          rw [htry] at h
          exact ih _ _ _ h
      · rw [if_neg hst] at h
        exact ih _ _ _ h

/-- C5 (amended): the `isWildcard` flag of every extracted import is
true exactly when the import path *contains* the character `*`
(`match[1].includes('*')`), not only when it ends with it. -/
theorem claim_c5 (content : String) (imp : RosettaImport)
    (h : imp ∈ extractImports content) :
    imp.isWildcard = true ↔ '*' ∈ imp.path.data :=
  extractImportsAux_wildcard _ _ _ imp h

/-- C5 counterexample: `import a.*.b` is matched by the import regex,
its captured path contains `*` but does not end with `*`, and the
parser still sets `isWildcard = true` — refuting the claim that
`isWildcard` holds iff the path ends with `*`. -/
theorem claim_c5_counterexample :
    extractImports "import a.*.b" =
      [{ path := "a.*.b", isWildcard := true }] ∧
    ¬(("a.*.b" : String).data.getLast? = some '*') := by
  constructor
  · decide
  · decide

/-- Witness for C5 at the concrete content `import c.*`. -/
theorem claim_c5_witness :
    (({ path := "c.*", isWildcard := true } : RosettaImport).isWildcard = true
      ↔ '*' ∈ (({ path := "c.*", isWildcard := true } :
        RosettaImport)).path.data) :=
  claim_c5 "import c.*" { path := "c.*", isWildcard := true } (by decide)

/-- C2: `parse` never raises.  (i)/(ii) characterise the extraction
loops over arbitrary per-element outcomes: the resulting types/enums
are exactly the successfully extracted elements and the resulting
errors are exactly the caught exceptions, so an exception while
extracting one element never aborts the remaining elements.
(iii)/(iv) state the structure of each generated error: message naming
the element, location at the element's line, severity `error`.
(v) `parse` (over arbitrary component outcomes, exceptions included)
always returns a `ParseResult` whose file carries the requested path —
in the catch branch a file with empty member lists. -/
theorem claim_c2 :
    (∀ (extract : TypeMatch → Except String TypeParts)
        (ms : List TypeMatch),
      extractTypesCore extract ms =
        (ms.filterMap (fun m =>
          match extract m with
          | .ok parts => some (mkRosettaType m parts)
          | .error _ => none),
        ms.filterMap (fun m =>
          match extract m with
          | .ok _ => none
          | .error e => some (typeParseError m e)))) ∧
    (∀ (extract : EnumMatch → Except String (List RosettaEnumValue))
        (ms : List EnumMatch),
      extractEnumsCore extract ms =
        (ms.filterMap (fun m =>
          match extract m with
          | .ok values => some (mkRosettaEnum m values)
          | .error _ => none),
        ms.filterMap (fun m =>
          match extract m with
          | .ok _ => none
          | .error e => some (enumParseError m e)))) ∧
    (∀ (m : TypeMatch) (e : String),
      (typeParseError m e).severity = .error ∧
      (typeParseError m e).location = { line := m.line, column := 0, length := 0 } ∧
      (typeParseError m e).message =
        "Error parsing type \x27" ++ m.name ++ "\x27: " ++ e) ∧
    (∀ (m : EnumMatch) (e : String),
      (enumParseError m e).severity = .error ∧
      (enumParseError m e).location = { line := m.line, column := 0, length := 0 } ∧
      (enumParseError m e).message =
        "Error parsing enum \x27" ++ m.name ++ "\x27: " ++ e) ∧
    (∀ (p : String) (ns : Except String (Option RosettaNamespace))
        (imps : Except String (List RosettaImport))
        (tys : List ParseError × Except String (List RosettaType))
        (ens : List ParseError × Except String (List RosettaEnum)),
      (parseCore p ns imps tys ens).file.filePath = p) := by
  refine ⟨?_, ?_, fun m e => ⟨rfl, rfl, rfl⟩, fun m e => ⟨rfl, rfl, rfl⟩, ?_⟩
  · intro extract ms
    induction ms with
    | nil => rfl
    | cons m ms ih =>
      simp only [extractTypesCore, List.filterMap_cons]
      cases hx : extract m with
      | ok parts => simp [hx, ih]
      | error e => simp [hx, ih]
  · intro extract ms
    induction ms with
    | nil => rfl
    | cons m ms ih =>
      simp only [extractEnumsCore, List.filterMap_cons]
      cases hx : extract m with
      | ok values => simp [hx, ih]
      | error e => simp [hx, ih]
  · intro p ns imps tys ens
    obtain ⟨te, tr⟩ := tys
    obtain ⟨ee, er⟩ := ens
    cases ns with
    | error e => rfl
    | ok nsv =>
      cases imps with
      | error e => rfl
      | ok iv =>
        cases tr with
        | error e => rfl
        | ok tv =>
          cases er with
          | error e => rfl
          | ok ev => rfl

theorem buildRec_guard_depth (st : IndexerState) (opts : GraphOptions)
    (maxDepth fuel : Nat) (typeName : String) (depth : Nat)
    (gs : GraphState) (h : depth > maxDepth) :
    buildGraphRecursive st opts maxDepth fuel typeName depth gs = gs := by
  cases fuel with
  | zero => rfl
  | succ f => simp [buildGraphRecursive, h]

theorem buildRec_guard_visited (st : IndexerState) (opts : GraphOptions)
    (maxDepth fuel : Nat) (typeName : String) (depth : Nat)
    (gs : GraphState) (h : gs.visited.contains typeName = true) :
    buildGraphRecursive st opts maxDepth fuel typeName depth gs = gs := by
  have hv : typeName ∈ gs.visited := by simpa using h
  cases fuel with
  | zero => rfl
  | succ f => simp [buildGraphRecursive, hv]

theorem foldl_congr_fn {α β : Type} (l : List α) (f g : β → α → β) (b : β)
    (h : ∀ x a, f x a = g x a) : l.foldl f b = l.foldl g b := by
  induction l generalizing b with
  | nil => rfl
  | cons a l ih =>
    simp only [List.foldl_cons, h]
    exact ih _

theorem buildRec_fuel_stable (st : IndexerState) (opts : GraphOptions)
    (maxDepth : Nat) :
    ∀ (k fuel depth : Nat), maxDepth + 1 - depth ≤ k → k ≤ fuel →
      ∀ (typeName : String) (gs : GraphState),
      buildGraphRecursive st opts maxDepth fuel typeName depth gs =
        buildGraphRecursive st opts maxDepth k typeName depth gs := by
  intro k
  induction k with
  | zero =>
    intro fuel depth hbound hk typeName gs
    have hd : depth > maxDepth := by omega
    rw [buildRec_guard_depth _ _ _ _ _ _ _ hd,
      buildRec_guard_depth _ _ _ _ _ _ _ hd]
  | succ k ih =>
    intro fuel depth hbound hk typeName gs
    by_cases hd : depth > maxDepth
    · rw [buildRec_guard_depth _ _ _ _ _ _ _ hd,
        buildRec_guard_depth _ _ _ _ _ _ _ hd]
    · obtain ⟨f, rfl⟩ : ∃ f, fuel = f + 1 := ⟨fuel - 1, by omega⟩
      have hkf : k ≤ f := by omega
      have hbound2 : maxDepth + 1 - (depth + 1) ≤ k := by omega
      by_cases hv : gs.visited.contains typeName = true
      · rw [buildRec_guard_visited _ _ _ _ _ _ _ hv,
          buildRec_guard_visited _ _ _ _ _ _ _ hv]
      · have hcond : (decide (depth > maxDepth) ||
            gs.visited.contains typeName) = false := by
          refine Bool.or_eq_false_iff.mpr ⟨by simpa using hd, ?_⟩
          revert hv
          cases gs.visited.contains typeName <;> simp
        rw [buildGraphRecursive, buildGraphRecursive, hcond]
        simp only [Bool.false_eq_true, if_false]
        cases hgt : getType st typeName with
        | none => rfl
        | some t =>
          dsimp only
          cases hext : t.extendsName with
          | none =>
            dsimp only
            by_cases hif : opts.includeFields ≠ some false
            · rw [if_pos hif, if_pos hif]
              apply foldl_congr_fn
              intro x a
              by_cases hp : isPrimitiveType a.type = true
              · simp only [hp, if_true]
              · simp only [hp, Bool.false_eq_true, if_false]
                exact ih f (depth + 1) hbound2 hkf _ _
            · rw [if_neg hif, if_neg hif]
          | some parent =>
            dsimp only
            have hrec := ih f (depth + 1) hbound2 hkf parent
            by_cases hif : opts.includeFields ≠ some false
            · rw [if_pos hif, if_pos hif, hrec]
              apply foldl_congr_fn
              intro x a
              by_cases hp : isPrimitiveType a.type = true
              · simp only [hp, if_true]
              · simp only [hp, Bool.false_eq_true, if_false]
                exact ih f (depth + 1) hbound2 hkf _ _
            · rw [if_neg hif, if_neg hif, hrec]

/-- C7: `buildGraphFromType` terminates for every starting name, every
index state (cycles included) and every `maxDepth`.  (i) the fuelled
recursion is fuel-independent once the fuel reaches
`maxDepth + 1 - depth`, i.e. the expansion completes within that bound
on every branch; (ii) a branch stops as soon as `depth > maxDepth`;
(iii) a branch stops as soon as the name was already visited; (iv) the
entry point's result is the same for every sufficient fuel. -/
theorem claim_c7 :
    (∀ (st : IndexerState) (opts : GraphOptions)
        (maxDepth fuel₁ fuel₂ : Nat) (typeName : String) (depth : Nat)
        (gs : GraphState),
      maxDepth + 1 - depth ≤ fuel₁ → maxDepth + 1 - depth ≤ fuel₂ →
      buildGraphRecursive st opts maxDepth fuel₁ typeName depth gs =
        buildGraphRecursive st opts maxDepth fuel₂ typeName depth gs) ∧
    (∀ (st : IndexerState) (opts : GraphOptions) (maxDepth fuel : Nat)
        (typeName : String) (depth : Nat) (gs : GraphState),
      depth > maxDepth →
      buildGraphRecursive st opts maxDepth fuel typeName depth gs = gs) ∧
    (∀ (st : IndexerState) (opts : GraphOptions) (maxDepth fuel : Nat)
        (typeName : String) (depth : Nat) (gs : GraphState),
      typeName ∈ gs.visited →
      buildGraphRecursive st opts maxDepth fuel typeName depth gs = gs) ∧
    (∀ (st : IndexerState) (typeName : String) (opts : GraphOptions)
        (fuel : Nat), opts.maxDepth.getD 3 + 1 ≤ fuel →
      buildGraphFromType st typeName opts =
        { nodes := (buildGraphRecursive st opts (opts.maxDepth.getD 3) fuel
            typeName 0 ({ nodes := [], edges := [], visited := [] } : GraphState)).nodes
          edges := (buildGraphRecursive st opts (opts.maxDepth.getD 3) fuel
            typeName 0 ({ nodes := [], edges := [], visited := [] } :
              GraphState)).edges }) := by
  refine ⟨?_, ?_, ?_, ?_⟩
  · intro st opts maxDepth fuel₁ fuel₂ typeName depth gs h1 h2
    rw [buildRec_fuel_stable st opts maxDepth (maxDepth + 1 - depth) fuel₁
        depth (le_refl _) h1 typeName gs,
      buildRec_fuel_stable st opts maxDepth (maxDepth + 1 - depth) fuel₂
        depth (le_refl _) h2 typeName gs]
  · intro st opts maxDepth fuel typeName depth gs h
    exact buildRec_guard_depth st opts maxDepth fuel typeName depth gs h
  · intro st opts maxDepth fuel typeName depth gs h
    exact buildRec_guard_visited st opts maxDepth fuel typeName depth gs
      (by simpa using h)
  · intro st typeName opts fuel hf
    unfold buildGraphFromType
    rw [buildRec_fuel_stable st opts (opts.maxDepth.getD 3)
        (opts.maxDepth.getD 3 + 1) fuel 0 (by omega) (by omega) typeName
        ({ nodes := [], edges := [], visited := [] } : GraphState),
      buildRec_fuel_stable st opts (opts.maxDepth.getD 3)
        (opts.maxDepth.getD 3 + 1) (opts.maxDepth.getD 3 + 1) 0 (by omega)
        (by omega) typeName ({ nodes := [], edges := [], visited := [] } :
          GraphState)]

/-- Witness for C7 at the concrete Employee model. -/
theorem claim_c7_witness :
    buildGraphRecursive employeeState employeeOpts 1 2 "Employee" 0
        ({ nodes := [], edges := [], visited := [] } : GraphState) =
      buildGraphRecursive employeeState employeeOpts 1 9 "Employee" 0
        ({ nodes := [], edges := [], visited := [] } : GraphState) ∧
    buildGraphRecursive employeeState employeeOpts 1 5 "Person" 2
        ({ nodes := [], edges := [], visited := [] } : GraphState) =
      { nodes := [], edges := [], visited := [] } ∧
    buildGraphRecursive employeeState employeeOpts 1 5 "Person" 0
        ({ nodes := [], edges := [], visited := ["Person"] } : GraphState) =
      { nodes := [], edges := [], visited := ["Person"] } ∧
    buildGraphFromType employeeState "Employee" employeeOpts =
      { nodes := (buildGraphRecursive employeeState employeeOpts 1 7
          "Employee" 0 { nodes := [], edges := [], visited := [] }).nodes
        edges := (buildGraphRecursive employeeState employeeOpts 1 7
          "Employee" 0 { nodes := [], edges := [], visited := [] }).edges } := by
  refine ⟨?_, ?_, ?_, ?_⟩
  · exact claim_c7.1 employeeState employeeOpts 1 2 9 "Employee" 0
      { nodes := [], edges := [], visited := [] } (by decide) (by decide)
  · exact claim_c7.2.1 employeeState employeeOpts 1 5 "Person" 2
      { nodes := [], edges := [], visited := [] } (by decide)
  · exact claim_c7.2.2.1 employeeState employeeOpts 1 5 "Person" 0
      { nodes := [], edges := [], visited := ["Person"] } (by decide)
  · exact claim_c7.2.2.2 employeeState "Employee" employeeOpts 7 (by decide)

/-- C4: on the Employee/Person/Department model,
`buildGraphFromType("Employee", maxDepth = 1)` yields exactly the
three nodes Employee, Person and Department and exactly the two edges
`Employee -extends-> Person` and
`Employee -hasField(department)-> Department`. -/
theorem claim_c4 :
    buildGraphFromType employeeState "Employee" employeeOpts =
      { nodes :=
          [("Employee",
            { id := "Employee", name := "Employee", kind := .type
              nspace := some "", description := none }),
           ("Person",
            { id := "Person", name := "Person", kind := .type
              nspace := some "", description := none }),
           ("Department",
            { id := "Department", name := "Department", kind := .type
              nspace := some "", description := none })]
        edges :=
          [{ fromId := "Employee", toId := "Person"
             relationshipType := .Extends, label := some "extends" },
           { fromId := "Employee", toId := "Department"
             relationshipType := .HasField, label := some "department" }] } ∧
    (buildGraphFromType employeeState "Employee" employeeOpts).nodes.length
      = 3 ∧
    (buildGraphFromType employeeState "Employee" employeeOpts).edges.length
      = 2 := by
  refine ⟨?_, ?_, ?_⟩ <;> decide

theorem mapGet_mem_keys {α : Type} {m : List (String × α)} {k : String}
    {v : α} (h : mapGet m k = some v) : k ∈ m.map Prod.fst := by
  induction m with
  | nil => simp [mapGet] at h
  | cons kv mm ih =>
    by_cases hk : kv.1 = k
    · simp [hk]
    · simp only [mapGet, if_neg hk] at h
      simp [ih h]

theorem two_mem_le_length {α : Type} {l : List α} {a b : α}
    (ha : a ∈ l) (hb : b ∈ l) (hne : a ≠ b) : 2 ≤ l.length := by
  cases l with
  | nil => cases ha
  | cons x xs =>
    rcases List.mem_cons.mp ha with h1 | h1
    · rcases List.mem_cons.mp hb with h2 | h2
      · exact absurd (h1.trans h2.symm) hne
      · have := List.length_pos_of_mem h2
        simp only [List.length_cons]
        omega
    · have := List.length_pos_of_mem h1
      simp only [List.length_cons]
      omega

theorem getType_index_some (st : IndexerState) (n : String) (t : RosettaType)
    (h : getType st n = some t) :
    ∃ sym, mapGet st.typeIndex n = some sym := by
  unfold getType at h
  cases hs : mapGet st.typeIndex n with
  | none => rw [hs] at h; exact Option.noConfusion h
  | some sym => exact ⟨sym, rfl⟩

theorem hasCircFuel_self (st : IndexerState) (n : String) (t : RosettaType)
    (hg : getType st n = some t) (he : t.extendsName = some n) :
    ∀ fuel, 2 ≤ fuel → hasCircularInheritanceFuel st fuel n [] = true := by
  intro fuel hf
  obtain ⟨f, rfl⟩ : ∃ f, fuel = f + 2 := ⟨fuel - 2, by omega⟩
  simp [hasCircularInheritanceFuel, hg, he]

theorem hasCircFuel_cycle (st : IndexerState) (A B : String)
    (tA tB : RosettaType) (hgA : getType st A = some tA)
    (hgB : getType st B = some tB) (heA : tA.extendsName = some B)
    (heB : tB.extendsName = some A) :
    ∀ fuel, 3 ≤ fuel → hasCircularInheritanceFuel st fuel A [] = true := by
  intro fuel hf
  by_cases hab : B = A
  · subst hab
    exact hasCircFuel_self st _ tA hgA heA fuel (by omega)
  · obtain ⟨f, rfl⟩ : ∃ f, fuel = f + 3 := ⟨fuel - 3, by omega⟩
    simp [hasCircularInheritanceFuel, hgA, heA, hgB, heB, hab]

theorem hasCirc_self (st : IndexerState) (n : String) (t : RosettaType)
    (hg : getType st n = some t) (he : t.extendsName = some n) :
    hasCircularInheritance st n [] = true := by
  obtain ⟨sym, hsym⟩ := getType_index_some st n t hg
  have hmem := mapGet_mem_keys hsym
  have hlen : 1 ≤ st.typeIndex.length := by
    have := List.length_pos_of_mem hmem
    simpa using this
  exact hasCircFuel_self st n t hg he _ (by omega)

theorem hasCirc_cycle (st : IndexerState) (A B : String)
    (tA tB : RosettaType) (hgA : getType st A = some tA)
    (hgB : getType st B = some tB) (heA : tA.extendsName = some B)
    (heB : tB.extendsName = some A) :
    hasCircularInheritance st A [] = true := by
  by_cases hab : B = A
  · subst hab
    exact hasCirc_self st _ tA hgA heA
  · obtain ⟨symA, hsymA⟩ := getType_index_some st A tA hgA
    obtain ⟨symB, hsymB⟩ := getType_index_some st B tB hgB
    have hlen : 2 ≤ st.typeIndex.length := by
      have h2 := two_mem_le_length (mapGet_mem_keys hsymA)
        (mapGet_mem_keys hsymB) (fun h => hab h.symm)
      simpa using h2
    exact hasCircFuel_cycle st A B tA tB hgA hgB heA heB _ (by omega)

theorem circ_diag_mem (st : IndexerState) (file : RosettaFile)
    (locT : String → Range) (locE : String → String → Range)
    (locF : String → String → Range) (t : RosettaType) (parent : String)
    (ht : t ∈ file.types) (hext : t.extendsName = some parent)
    (hcirc : hasCircularInheritance st t.name [] = true) :
    ∃ d ∈ validateTypes st file locT locE locF,
      d.message = circularMsg t.name := by
  refine ⟨{ range := locE t.name parent, message := circularMsg t.name
            severity :=
              mapSeverity VALIDATION_RULES_CIRCULAR_INHERITANCE.severity },
    ?_, rfl⟩
  unfold validateTypes
  rw [List.mem_flatMap]
  refine ⟨t, ht, ?_⟩
  unfold validateTypeOne
  rw [hext]
  simp only [List.mem_append]
  refine Or.inl (Or.inl (Or.inr ?_))
  simp [VALIDATION_RULES_CIRCULAR_INHERITANCE, hcirc]

/-- C3: (i) a self-extending Type (`type A extends A`, as resolved by
the indexer) is flagged by the circular-inheritance rule and yields a
circular-inheritance diagnostic when a file containing it is
validated; (ii) for a two-cycle (`type A extends B`, `type B extends
A`) validating a file containing both Types flags both and produces a
circular-inheritance diagnostic for each. -/
theorem claim_c3 :
    (∀ (st : IndexerState) (file : RosettaFile) (locT : String → Range)
        (locE : String → String → Range) (locF : String → String → Range)
        (t : RosettaType),
      t ∈ file.types → getType st t.name = some t →
      t.extendsName = some t.name →
      hasCircularInheritance st t.name [] = true ∧
      ∃ d ∈ validateTypes st file locT locE locF,
        d.message = circularMsg t.name) ∧
    (∀ (st : IndexerState) (file : RosettaFile) (locT : String → Range)
        (locE : String → String → Range) (locF : String → String → Range)
        (tA tB : RosettaType),
      tA ∈ file.types → tB ∈ file.types →
      getType st tA.name = some tA → getType st tB.name = some tB →
      tA.extendsName = some tB.name → tB.extendsName = some tA.name →
      (hasCircularInheritance st tA.name [] = true ∧
        hasCircularInheritance st tB.name [] = true) ∧
      (∃ d ∈ validateTypes st file locT locE locF,
        d.message = circularMsg tA.name) ∧
      (∃ d ∈ validateTypes st file locT locE locF,
        d.message = circularMsg tB.name)) := by
  constructor
  · intro st file locT locE locF t ht hg he
    have hc := hasCirc_self st t.name t hg he
    exact ⟨hc, circ_diag_mem st file locT locE locF t t.name ht he hc⟩
  · intro st file locT locE locF tA tB htA htB hgA hgB heA heB
    have hcA := hasCirc_cycle st tA.name tB.name tA tB hgA hgB heA heB
    have hcB := hasCirc_cycle st tB.name tA.name tB tA hgB hgA heB heA
    exact ⟨⟨hcA, hcB⟩,
      circ_diag_mem st file locT locE locF tA tB.name htA heA hcA,
      circ_diag_mem st file locT locE locF tB tA.name htB heB hcB⟩

/-- Witness for C3 at the concrete self-loop and two-cycle models. -/
theorem claim_c3_witness :
    (hasCircularInheritance selfLoopState "A" [] = true ∧
      ∃ d ∈ validateTypes selfLoopState selfLoopFile locTZero locEZero
        locFZero, d.message = circularMsg "A") ∧
    ((hasCircularInheritance cycleState "A" [] = true ∧
        hasCircularInheritance cycleState "B" [] = true) ∧
      (∃ d ∈ validateTypes cycleState cycleFile locTZero locEZero locFZero,
        d.message = circularMsg "A") ∧
      (∃ d ∈ validateTypes cycleState cycleFile locTZero locEZero locFZero,
        d.message = circularMsg "B")) := by
  constructor
  · have h := claim_c3.1 selfLoopState selfLoopFile locTZero locEZero locFZero
      selfLoopType (by decide) (by decide) (by decide)
    simpa using h
  · have h := claim_c3.2 cycleState cycleFile locTZero locEZero locFZero
      cycleTypeA cycleTypeB (by decide) (by decide) (by decide) (by decide)
      (by decide) (by decide)
    simpa using h

theorem dupFieldMsg_inj (a b T : String) (h : dupFieldMsg a T = dupFieldMsg b T) :
    a = b := by
  unfold dupFieldMsg at h
  have hd := congrArg String.data h
  simp only [String.data_append, List.append_assoc] at hd
  have h1 := List.append_cancel_left hd
  have h2 := List.append_cancel_right h1
  cases a
  cases b
  exact congrArg String.mk (by simpa using h2)

theorem dupFieldMsg_head (a T : String) :
    (dupFieldMsg a T).data.head? = some 'D' := by
  simp [dupFieldMsg, String.data_append]

theorem emptyTypeMsg_head (n : String) :
    (emptyTypeMsg n).data.head? = some 'T' := by
  simp [emptyTypeMsg, String.data_append]

theorem missingTypeDescMsg_head (n : String) :
    (missingTypeDescMsg n).data.head? = some 'T' := by
  simp [missingTypeDescMsg, String.data_append]

theorem undefinedParentMsg_head (n : String) :
    (undefinedParentMsg n).data.head? = some 'P' := by
  simp [undefinedParentMsg, String.data_append]

theorem circularMsg_head (n : String) :
    (circularMsg n).data.head? = some 'T' := by
  simp [circularMsg, String.data_append]

theorem undefinedFieldTypeMsg_head (n : String) :
    (undefinedFieldTypeMsg n).data.head? = some 'F' := by
  simp [undefinedFieldTypeMsg, String.data_append]

theorem invalidCardinalityMsg_head (n : String) (mn mx : Nat) :
    (invalidCardinalityMsg n mn mx).data.head? = some 'I' := by
  simp [invalidCardinalityMsg, String.data_append]

theorem missingFieldDescMsg_head (n : String) :
    (missingFieldDescMsg n).data.head? = some 'F' := by
  simp [missingFieldDescMsg, String.data_append]

theorem dup_pred_false_of_head {m : String} (x T : String)
    (h : m.data.head? ≠ some 'D') :
    (m == dupFieldMsg x T) = false := by
  apply beq_eq_false_iff_ne.mpr
  intro he
  apply h
  rw [he, dupFieldMsg_head]

theorem countP_zero_of_all {l : List Diagnostic} {p : Diagnostic → Bool}
    (h : ∀ d ∈ l, p d = false) : l.countP p = 0 := by
  rw [List.countP_eq_zero]
  intro d hd
  simp [h d hd]

theorem dupFieldLoop_countP (T : String) (locF : String → String → Range)
    (x : String) :
    ∀ (fs : List RosettaField) (seen : List String),
      (dupFieldLoop T locF fs seen).countP
          (fun d => d.message == dupFieldMsg x T) =
        if x ∈ seen then (fs.map RosettaField.name).count x
        else (fs.map RosettaField.name).count x - 1 := by
  intro fs
  induction fs with
  | nil =>
    intro seen
    simp [dupFieldLoop]
  | cons f fs ih =>
    intro seen
    simp only [dupFieldLoop, List.countP_append]
    by_cases hfx : f.name = x
    · subst hfx
      by_cases hseen : f.name ∈ seen
      · rw [ih (f.name :: seen)]
        simp [hseen, List.count_cons, List.countP_cons]
        try omega
      · rw [ih (f.name :: seen)]
        simp [hseen, List.count_cons, List.countP_cons]
        try omega
    · have hne : (dupFieldMsg f.name T == dupFieldMsg x T) = false := by
        apply beq_eq_false_iff_ne.mpr
        intro hmsg
        exact hfx (dupFieldMsg_inj f.name x T hmsg)
      have hxs : ¬(x = f.name) := fun h => hfx h.symm
      rw [ih (f.name :: seen)]
      have hseeniff : (x ∈ f.name :: seen) ↔ (x ∈ seen) :=
        ⟨fun h => (List.mem_cons.mp h).resolve_left hxs,
          fun h => List.mem_cons_of_mem _ h⟩
      by_cases hx : x ∈ seen
      · rw [if_pos (hseeniff.mpr hx), if_pos hx]
        by_cases hc : f.name ∈ seen
        · simp [hc, hne, List.count_cons, hxs, List.countP_cons]
        · simp [hc, List.count_cons, hxs]
      · rw [if_neg (fun h => hx (hseeniff.mp h)), if_neg hx]
        by_cases hc : f.name ∈ seen
        · simp [hc, hne, List.count_cons, hxs, List.countP_cons]
        · simp [hc, List.count_cons, hxs]

theorem countP_ite {c : Prop} [Decidable c] (l1 l2 : List Diagnostic)
    (p : Diagnostic → Bool) :
    (if c then l1 else l2).countP p = if c then l1.countP p else l2.countP p := by
  split_ifs <;> rfl

theorem validateField_countP_dup (st : IndexerState) (T : String)
    (locF : String → String → Range) (f : RosettaField) (x : String) :
    (validateField st T locF f).countP
      (fun d => d.message == dupFieldMsg x T) = 0 := by
  apply countP_zero_of_all
  intro d hd
  unfold validateField at hd
  simp only [List.mem_append] at hd
  rcases hd with (hd | hd) | hd
  · split at hd
    · split at hd
      · rw [List.mem_singleton] at hd
        rw [hd]
        exact dup_pred_false_of_head x T
          (by rw [undefinedFieldTypeMsg_head]; simp)
      · simp at hd
    · simp at hd
  · split at hd
    · split at hd
      · split at hd
        · rw [List.mem_singleton] at hd
          rw [hd]
          exact dup_pred_false_of_head x T
            (by rw [invalidCardinalityMsg_head]; simp)
        · simp at hd
      · simp at hd
    · simp at hd
  · split at hd
    · rw [List.mem_singleton] at hd
      rw [hd]
      exact dup_pred_false_of_head x T
        (by rw [missingFieldDescMsg_head]; simp)
    · simp at hd

theorem fields_flatMap_countP_dup (st : IndexerState) (T : String)
    (locF : String → String → Range) (fs : List RosettaField) (x : String) :
    (fs.flatMap (validateField st T locF)).countP
      (fun d => d.message == dupFieldMsg x T) = 0 := by
  apply countP_zero_of_all
  intro d hd
  rw [List.mem_flatMap] at hd
  obtain ⟨f, _, hdf⟩ := hd
  simpa using List.countP_eq_zero.mp (validateField_countP_dup st T locF f x) d hdf

/-- C6: for a Type whose field list contains `n ≥ 2` occurrences of one
field name, validation emits exactly `n - 1` duplicate-field
diagnostics for that name in the diagnostics produced for that Type
(the seen-set loop never flags the first occurrence and flags each
subsequent repeat once); for a file consisting of that Type this count
is the whole `validateTypes` output's count. -/
theorem claim_c6 (st : IndexerState) (locT : String → Range)
    (locE : String → String → Range) (locF : String → String → Range)
    (t : RosettaType) (x : String) (n : Nat)
    (hn : (t.fields.map RosettaField.name).count x = n) (h2 : 2 ≤ n) :
    (validateTypeOne st locT locE locF t).countP
        (fun d => d.message == dupFieldMsg x t.name) = n - 1 ∧
    (∀ file : RosettaFile, file.types = [t] →
      (validateTypes st file locT locE locF).countP
          (fun d => d.message == dupFieldMsg x t.name) = n - 1) := by
  have p1 : (emptyTypeMsg t.name == dupFieldMsg x t.name) = false :=
    dup_pred_false_of_head x t.name (by rw [emptyTypeMsg_head]; simp)
  have p3 : ∀ pnt : String,
      (undefinedParentMsg pnt == dupFieldMsg x t.name) = false :=
    fun pnt =>
      dup_pred_false_of_head x t.name (by rw [undefinedParentMsg_head]; simp)
  have p4 : (circularMsg t.name == dupFieldMsg x t.name) = false :=
    dup_pred_false_of_head x t.name (by rw [circularMsg_head]; simp)
  have hz6 := fields_flatMap_countP_dup st t.name locF t.fields x
  have hloop := dupFieldLoop_countP t.name locF x t.fields []
  have hmain : (validateTypeOne st locT locE locF t).countP
      (fun d => d.message == dupFieldMsg x t.name) = n - 1 := by
    unfold validateTypeOne
    cases hext : t.extendsName with
    | none =>
      simp [List.countP_append, countP_ite, p1, hz6, hloop, hn,
        VALIDATION_RULES_MISSING_DESCRIPTION, VALIDATION_RULES_EMPTY_TYPE,
        VALIDATION_RULES_DUPLICATE_FIELD, List.countP_cons]
    | some parent =>
      cases hgt : getType st parent with
      | none =>
        simp [List.countP_append, countP_ite, p1, p3, p4, hz6, hloop, hn,
          hgt, VALIDATION_RULES_MISSING_DESCRIPTION,
          VALIDATION_RULES_EMPTY_TYPE, VALIDATION_RULES_UNDEFINED_TYPE,
          VALIDATION_RULES_CIRCULAR_INHERITANCE,
          VALIDATION_RULES_DUPLICATE_FIELD, List.countP_cons]
      | some tp =>
        simp [List.countP_append, countP_ite, p1, p3, p4, hz6, hloop, hn,
          hgt, VALIDATION_RULES_MISSING_DESCRIPTION,
          VALIDATION_RULES_EMPTY_TYPE, VALIDATION_RULES_UNDEFINED_TYPE,
          VALIDATION_RULES_CIRCULAR_INHERITANCE,
          VALIDATION_RULES_DUPLICATE_FIELD, List.countP_cons]
  refine ⟨hmain, fun file hf => ?_⟩
  unfold validateTypes
  rw [hf]
  simpa using hmain

/-- Witness for C6: a type with three fields named `a` yields exactly
two duplicate-field diagnostics. -/
theorem claim_c6_witness :
    (validateTypeOne emptyIndexerState locTZero locEZero locFZero
        tripleFieldType).countP
      (fun d => d.message == dupFieldMsg "a" "T") = 2 := by
  have h := (claim_c6 emptyIndexerState locTZero locEZero locFZero
    tripleFieldType "a" 3 (by decide) (by decide)).1
  simpa using h

/-- C8: when a name resolves in the symbol table but the owning file's
entry is missing from the file table, or the owning file no longer
contains a Type (resp. Enum) with the symbol's simple name, `getType`
(resp. `getEnum`) returns `undefined`. -/
theorem claim_c8 (st : IndexerState) (name : String) :
    (∀ sym, mapGet st.typeIndex name = some sym →
      (mapGet st.files sym.filePath = none → getType st name = none) ∧
      (∀ file, mapGet st.files sym.filePath = some file →
        (∀ t ∈ file.types, t.name ≠ simpleName sym.name) →
        getType st name = none)) ∧
    (∀ sym, mapGet st.enumIndex name = some sym →
      (mapGet st.files sym.filePath = none → getEnum st name = none) ∧
      (∀ file, mapGet st.files sym.filePath = some file →
        (∀ e ∈ file.enums, e.name ≠ simpleName sym.name) →
        getEnum st name = none)) := by
  constructor
  · intro sym hsym
    constructor
    · intro hfile
      simp [getType, hsym, hfile]
    · intro file hfile hnone
      simp only [getType, hsym, hfile]
      apply List.find?_eq_none.mpr
      intro t ht
      simp [hnone t ht]
  · intro sym hsym
    constructor
    · intro hfile
      simp [getEnum, hsym, hfile]
    · intro file hfile hnone
      simp only [getEnum, hsym, hfile]
      apply List.find?_eq_none.mpr
      intro e he
      simp [hnone e he]

/-- Witness for C8 at the stale-lookup fixture. -/
theorem claim_c8_witness :
    getType staleLookupState "T" = none ∧
    getType staleLookupState "U" = none ∧
    getEnum staleLookupState "E" = none := by
  refine ⟨?_, ?_, ?_⟩
  · exact ((claim_c8 staleLookupState "T").1 (mkTypeSym "T" "k")
      (by decide)).2 barrenFile (by decide) (by decide)
  · exact ((claim_c8 staleLookupState "U").1 (mkTypeSym "U" "gone")
      (by decide)).1 (by decide)
  · exact ((claim_c8 staleLookupState "E").2 (mkEnumSym "E" "k")
      (by decide)).2 barrenFile (by decide) (by decide)

/-- C9: `indexFile` replaces the file-table entry for the path
wholesale with the new parse, leaves every other path's entry
unchanged, and registers each Type/Enum of the new parse under its
bare and its namespace-qualified name (with symbols pointing at the
indexed path). -/
theorem claim_c9 (st : IndexerState) (p : String) (parsed : RosettaFile) :
    (mapGet (indexFile st p parsed).files p = some parsed) ∧
    (∀ q, q ≠ p →
      mapGet (indexFile st p parsed).files q = mapGet st.files q) ∧
    (∀ t ∈ parsed.types,
      (∃ s, mapGet (indexFile st p parsed).typeIndex t.name = some s ∧
        s.filePath = p ∧ s.kind = .type) ∧
      (∃ s, mapGet (indexFile st p parsed).typeIndex
          (qualifyName (fileNamespaceName parsed) t.name) = some s ∧
        s.filePath = p ∧ s.kind = .type)) ∧
    (∀ e ∈ parsed.enums,
      (∃ s, mapGet (indexFile st p parsed).enumIndex e.name = some s ∧
        s.filePath = p ∧ s.kind = .enum) ∧
      (∃ s, mapGet (indexFile st p parsed).enumIndex
          (qualifyName (fileNamespaceName parsed) e.name) = some s ∧
        s.filePath = p ∧ s.kind = .enum)) := by
  refine ⟨mapGet_mapSet_self _ _ _, fun q hq => mapGet_mapSet_ne _ _ _ _ hq,
    fun t ht => foldl_indexOneType_mem _ _ _ _ t ht,
    fun e he => foldl_indexOneEnum_mem _ _ _ _ e he⟩

/-- Witness for C9: re-indexing path `w` with the new parse. -/
theorem claim_c9_witness :
    mapGet (indexFile preIndexState "w" newFileW).files "w" = some newFileW ∧
    mapGet (indexFile preIndexState "w" newFileW).files "v" =
      mapGet preIndexState.files "v" ∧
    (∃ s, mapGet (indexFile preIndexState "w" newFileW).typeIndex "New" =
      some s ∧ s.filePath = "w" ∧ s.kind = .type) ∧
    (∃ s, mapGet (indexFile preIndexState "w" newFileW).typeIndex "ns.New" =
      some s ∧ s.filePath = "w" ∧ s.kind = .type) ∧
    (∃ s, mapGet (indexFile preIndexState "w" newFileW).enumIndex "Color" =
      some s ∧ s.filePath = "w" ∧ s.kind = .enum) ∧
    (∃ s, mapGet (indexFile preIndexState "w" newFileW).enumIndex
      "ns.Color" = some s ∧ s.filePath = "w" ∧ s.kind = .enum) := by
  have h := claim_c9 preIndexState "w" newFileW
  refine ⟨h.1, h.2.1 "v" (by decide), ?_, ?_, ?_, ?_⟩
  · exact (h.2.2.1 (mkType "New" none []) (by decide)).1
  · exact (h.2.2.1 (mkType "New" none []) (by decide)).2
  · exact (h.2.2.2 ({ name := "Color", description := none, values := [], location := locZero } : RosettaEnum) (by decide)).1
  · exact (h.2.2.2 ({ name := "Color", description := none, values := [], location := locZero } : RosettaEnum) (by decide)).2

theorem foldl_indexFile_typeIndex_none (files : List (String × RosettaFile))
    (nm : String) :
    ∀ st0 : IndexerState, mapGet st0.typeIndex nm = none →
    (∀ pf ∈ files, ∀ t ∈ pf.2.types,
      t.name ≠ nm ∧ qualifyName (fileNamespaceName pf.2) t.name ≠ nm) →
    mapGet ((files.foldl (fun st pf => indexFile st pf.1 pf.2) st0).typeIndex)
      nm = none := by
  induction files with
  | nil =>
    intro st0 h0 _
    exact h0
  | cons pf rest ih =>
    intro st0 h0 hall
    simp only [List.foldl_cons]
    apply ih
    · have hframe := foldl_indexOneType_frame (fileNamespaceName pf.2) pf.1
        pf.2.types st0.typeIndex nm
        (fun t ht => ⟨fun he => ((hall pf (List.mem_cons_self pf rest)) t ht).1
            he.symm,
          fun he => ((hall pf (List.mem_cons_self pf rest)) t ht).2 he.symm⟩)
      rw [show (indexFile st0 pf.1 pf.2).typeIndex =
        pf.2.types.foldl (indexOneType (fileNamespaceName pf.2) pf.1)
          st0.typeIndex from rfl, hframe]
      exact h0
    · intro q hq
      exact hall q (List.mem_cons_of_mem _ hq)

/-- C10: `indexFile` only adds or overwrites symbol-table entries and
never removes them: (i)/(ii) every key resolvable before re-indexing
is still resolvable after; (iii) when a file previously defining a
symbol is re-indexed without it (and the new parse registers nothing
under that key), the stale `SymbolInfo` is still returned by
`getSymbol` while `getType` returns `undefined`; (iv) a full
`indexWorkspace` rebuild starts from cleared tables, so a key no file
defines resolves to nothing. -/
theorem claim_c10 :
    (∀ (st : IndexerState) (p : String) (parsed : RosettaFile) (k : String),
      (mapGet st.typeIndex k).isSome = true →
      (mapGet (indexFile st p parsed).typeIndex k).isSome = true) ∧
    (∀ (st : IndexerState) (p : String) (parsed : RosettaFile) (k : String),
      (mapGet st.enumIndex k).isSome = true →
      (mapGet (indexFile st p parsed).enumIndex k).isSome = true) ∧
    (∀ (st : IndexerState) (p : String) (newFile : RosettaFile)
        (nm : String) (s : SymbolInfo),
      mapGet st.typeIndex nm = some s → s.filePath = p →
      (∀ t ∈ newFile.types, t.name ≠ nm ∧
        qualifyName (fileNamespaceName newFile) t.name ≠ nm) →
      (∀ t ∈ newFile.types, t.name ≠ simpleName s.name) →
      getSymbol (indexFile st p newFile) nm = some s ∧
      getType (indexFile st p newFile) nm = none) ∧
    (∀ (files : List (String × RosettaFile)) (nm : String),
      (∀ pf ∈ files, ∀ t ∈ pf.2.types,
        t.name ≠ nm ∧ qualifyName (fileNamespaceName pf.2) t.name ≠ nm) →
      mapGet (indexWorkspace files).typeIndex nm = none) := by
  refine ⟨?_, ?_, ?_, ?_⟩
  · intro st p parsed k h
    rcases foldl_indexOneType_get (fileNamespaceName parsed) p parsed.types
      st.typeIndex k with he | ⟨s, hs, _, _⟩
    · rw [show (indexFile st p parsed).typeIndex =
        parsed.types.foldl (indexOneType (fileNamespaceName parsed) p)
          st.typeIndex from rfl, he]
      exact h
    · rw [show (indexFile st p parsed).typeIndex =
        parsed.types.foldl (indexOneType (fileNamespaceName parsed) p)
          st.typeIndex from rfl, hs]
      rfl
  · intro st p parsed k h
    rcases foldl_indexOneEnum_get (fileNamespaceName parsed) p parsed.enums
      st.enumIndex k with he | ⟨s, hs, _, _⟩
    · rw [show (indexFile st p parsed).enumIndex =
        parsed.enums.foldl (indexOneEnum (fileNamespaceName parsed) p)
          st.enumIndex from rfl, he]
      exact h
    · rw [show (indexFile st p parsed).enumIndex =
        parsed.enums.foldl (indexOneEnum (fileNamespaceName parsed) p)
          st.enumIndex from rfl, hs]
      rfl
  · intro st p newFile nm s hsym hpath huntouched hgone
    have hframe := foldl_indexOneType_frame (fileNamespaceName newFile) p
      newFile.types st.typeIndex nm
      (fun t ht => ⟨fun he => (huntouched t ht).1 he.symm,
        fun he => (huntouched t ht).2 he.symm⟩)
    have hidx : mapGet (indexFile st p newFile).typeIndex nm = some s := by
      rw [show (indexFile st p newFile).typeIndex =
        newFile.types.foldl (indexOneType (fileNamespaceName newFile) p)
          st.typeIndex from rfl, hframe]
      exact hsym
    constructor
    · simp [getSymbol, hidx]
    · simp only [getType, hidx]
      have hfiles : mapGet (indexFile st p newFile).files s.filePath =
          some newFile := by
        rw [hpath]
        exact mapGet_mapSet_self _ _ _
      rw [hfiles]
      apply List.find?_eq_none.mpr
      intro t ht
      simp [hgone t ht]
  · intro files nm hall
    exact foldl_indexFile_typeIndex_none files nm
      { files := [], typeIndex := [], enumIndex := [] } rfl hall

/-- Witness for C10: path `p` re-indexed without `T` leaves the stale
`T` symbol behind, `getType` goes stale-`undefined`, and a workspace
rebuild without `T` clears it. -/
theorem claim_c10_witness :
    (mapGet (indexFile staleSymState "p" newFileP).typeIndex "T").isSome =
      true ∧
    getSymbol (indexFile staleSymState "p" newFileP) "T" =
      some (mkTypeSym "T" "p") ∧
    getType (indexFile staleSymState "p" newFileP) "T" = none ∧
    mapGet (indexWorkspace [("p", newFileP)]).typeIndex "T" = none := by
  have h3 := claim_c10.2.2.1 staleSymState "p" newFileP "T"
    (mkTypeSym "T" "p") (by decide) (by decide) (by decide) (by decide)
  refine ⟨?_, h3.1, h3.2, ?_⟩
  · exact claim_c10.1 staleSymState "p" newFileP "T" (by decide)
  · exact claim_c10.2.2.2 [("p", newFileP)] "T" (by decide)
